import Mathlib

/-!
# Verification of the void-dex-api routing/quoting core

A shallow embedding, in Lean 4, of the route-optimisation core of the
void-dex-api repository (liquidity graph builder, depth-bounded pathfinder,
per-route and per-venue quoting, split optimizer, exact-output solver),
together with proofs and refutations of the specification's claims.

Modelling conventions:
* JavaScript `number` arithmetic is modelled with exact rationals (`ℚ`);
  `bigint` amounts are modelled with `ℕ`.  `Number(formatUnits(x, d))` is
  modelled as `(x : ℚ) / 10 ^ d`.
* A JavaScript division `0 / 0` yields `NaN`; every predicate the embedded
  code applies to a possibly-`NaN` value (`NaN >= t`) is false, which
  coincides with Lean's `0 / 0 = 0` convention at every use site below
  (the thresholds compared against are strictly positive).
* Asynchronous on-chain calls are modelled as pure oracle functions passed
  as parameters; `Promise.all` over independent attempts is modelled by
  mapping the oracle over the attempts.
* A thrown exception / caught failure is modelled with `Option` (`none`).
-/

namespace VoidDex

/-- JavaScript `Math.round`: round half up (toward `+∞`). -/
def jsRound (x : ℚ) : ℤ := ⌊x + 1 / 2⌋

/-- `Math.round(x * 100) / 100`: round to two decimal places, as the
split optimizers do for percentages. -/
def round2 (x : ℚ) : ℚ := (jsRound (x * 100) : ℚ) / 100

theorem jsRound_le (x : ℚ) : (jsRound x : ℚ) ≤ x + 1 / 2 :=
  Int.floor_le (x + 1 / 2)

theorem lt_jsRound (x : ℚ) : x - 1 / 2 < (jsRound x : ℚ) := by
  have h := Int.sub_one_lt_floor (x + 1 / 2)
  unfold jsRound
  linarith

theorem round2_le (x : ℚ) : round2 x ≤ x + 1 / 200 := by
  unfold round2
  have h := jsRound_le (x * 100)
  rw [div_le_iff (by norm_num : (0:ℚ) < 100)]
  linarith

theorem lt_round2 (x : ℚ) : x - 1 / 200 < round2 x := by
  unfold round2
  have h := lt_jsRound (x * 100)
  rw [lt_div_iff (by norm_num : (0:ℚ) < 100)]
  linarith

/-- Rounding to two decimals is the identity on exact multiples of `1/100`. -/
theorem round2_intMul (k : ℤ) : round2 ((k : ℚ) / 100) = (k : ℚ) / 100 := by
  unfold round2 jsRound
  rw [div_mul_cancel₀ (h := by norm_num)]
  have h2 : ⌊(k : ℚ) + 1 / 2⌋ = k := by
    rw [Int.floor_eq_iff]
    constructor
    · linarith
    · push_cast
      linarith
  rw [h2]

/-- `round2` is monotone. -/
theorem round2_mono {x y : ℚ} (h : x ≤ y) : round2 x ≤ round2 y := by
  unfold round2 jsRound
  have : ⌊x * 100 + 1 / 2⌋ ≤ ⌊y * 100 + 1 / 2⌋ :=
    Int.floor_le_floor (by linarith)
  exact div_le_div_of_nonneg_right (by exact_mod_cast this) (by norm_num)

/-- If `c` is an integer bound below a value, rounding keeps the bound. -/
theorem le_round2_of_intCast_le {c : ℤ} {x : ℚ} (h : (c : ℚ) ≤ x) :
    (c : ℚ) ≤ round2 x := by
  have := round2_mono h
  calc (c : ℚ) = round2 ((c * 100 : ℤ) / 100) := by
        rw [round2_intMul]; push_cast; ring
    _ ≤ round2 x := by
        refine round2_mono ?_
        push_cast
        rw [mul_div_assoc]
        norm_num
        exact h

/-- `round2` keeps values in `[0, ⋅]` nonnegative. -/
theorem round2_nonneg {x : ℚ} (h : 0 ≤ x) : 0 ≤ round2 x := by
  have := le_round2_of_intCast_le (c := 0) (by exact_mod_cast h)
  exact_mod_cast this

/-- ASCII lower-casing of one character (JavaScript `toLowerCase` on the
hexadecimal/address alphabet used by the repository). -/
def jsToLowerChar (c : Char) : Char :=
  if 65 ≤ c.toNat ∧ c.toNat ≤ 90 then Char.ofNat (c.toNat + 32) else c

/-- JavaScript `String.prototype.toLowerCase`. -/
def jsToLower (s : String) : String := String.mk (s.data.map jsToLowerChar)

/-! ## Stable sorting, as JavaScript `Array.prototype.sort`

The repository sorts quote lists with comparators on a single numeric key
(`amountOut` descending, or `estimatedGas` ascending).  ES2019 `sort` is
stable, so it is modelled by a stable insertion sort on the key. -/

/-- Insert into a descending-sorted list, after any element with an equal
key (stability). -/
def insDescBy (key : α → ℕ) : List α → α → List α
  | [], q => [q]
  | x :: xs, q => if key x < key q then q :: x :: xs else x :: insDescBy key xs q

/-- Stable sort, descending on `key`. -/
def sortDescBy (key : α → ℕ) (l : List α) : List α :=
  l.foldl (insDescBy key) []

/-- Insert into an ascending-sorted list, after any element with an equal
key (stability). -/
def insAscBy (key : α → ℕ) : List α → α → List α
  | [], q => [q]
  | x :: xs, q => if key q < key x then q :: x :: xs else x :: insAscBy key xs q

/-- Stable sort, ascending on `key`. -/
def sortAscBy (key : α → ℕ) (l : List α) : List α :=
  l.foldl (insAscBy key) []

theorem insDescBy_perm (key : α → ℕ) (l : List α) (q : α) :
    List.Perm (insDescBy key l q) (q :: l) := by
  induction l with
  | nil => simp [insDescBy]
  | cons x xs ih =>
      by_cases h : key x < key q
      · simp [insDescBy, h]
      · simp only [insDescBy, if_neg h]
        exact (ih.cons x).trans (List.Perm.swap q x xs)

theorem sortDescBy_perm (key : α → ℕ) (l : List α) :
    List.Perm (sortDescBy key l) l := by
  suffices h : ∀ acc : List α, List.Perm (l.foldl (insDescBy key) acc) (acc ++ l) by
    simpa using h []
  induction l with
  | nil => simp
  | cons x xs ih =>
      intro acc
      have h1 : List.Perm (xs.foldl (insDescBy key) (insDescBy key acc x))
          (insDescBy key acc x ++ xs) := ih _
      have h2 : List.Perm (insDescBy key acc x ++ xs) ((x :: acc) ++ xs) :=
        (insDescBy_perm key acc x).append_right xs
      have h3 : List.Perm ((x :: acc) ++ xs) (acc ++ x :: xs) := by
        simpa using List.perm_middle.symm
      exact (h1.trans h2).trans h3

theorem chain'_insDescBy (key : α → ℕ) (l : List α) (q : α)
    (h : l.Chain' (fun a b => key b ≤ key a)) :
    (insDescBy key l q).Chain' (fun a b => key b ≤ key a) := by
  induction l with
  | nil => simp [insDescBy]
  | cons x xs ih =>
      by_cases hx : key x < key q
      · simp only [insDescBy, if_pos hx]
        exact h.cons (le_of_lt hx)
      · simp only [insDescBy, if_neg hx]
        have hxs : xs.Chain' (fun a b => key b ≤ key a) := h.tail
        refine (ih hxs).cons' ?_
        intro y hy
        cases xs with
        | nil =>
            simp only [insDescBy, List.head?_cons, Option.mem_def,
              Option.some.injEq] at hy
            subst hy
            exact Nat.le_of_not_lt hx
        | cons z zs =>
            by_cases hz : key z < key q
            · simp only [insDescBy, if_pos hz, List.head?_cons, Option.mem_def,
                Option.some.injEq] at hy
              subst hy
              exact Nat.le_of_not_lt hx
            · simp only [insDescBy, if_neg hz, List.head?_cons, Option.mem_def,
                Option.some.injEq] at hy
              subst hy
              exact (List.chain'_cons.mp h).1

theorem sortDescBy_chain' (key : α → ℕ) (l : List α) :
    (sortDescBy key l).Chain' (fun a b => key b ≤ key a) := by
  suffices h : ∀ acc : List α, acc.Chain' (fun a b => key b ≤ key a) →
      (l.foldl (insDescBy key) acc).Chain' (fun a b => key b ≤ key a) by
    exact h [] (by simp)
  induction l with
  | nil => exact fun acc h => h
  | cons x xs ih =>
      intro acc hacc
      exact ih _ (chain'_insDescBy key acc x hacc)

/-- In a descending-sorted list, every element's key is at most the head's. -/
theorem chain'_desc_le_head (key : α → ℕ) :
    ∀ (l : List α) (x : α), (x :: l).Chain' (fun a b => key b ≤ key a) →
      ∀ y ∈ l, key y ≤ key x
  | [], _, _, y, hy => by cases hy
  | z :: zs, x, h, y, hy => by
      have h1 : key z ≤ key x := (List.chain'_cons.mp h).1
      have h2 : (z :: zs).Chain' (fun a b => key b ≤ key a) :=
        (List.chain'_cons.mp h).2
      rcases List.mem_cons.mp hy with rfl | hy2
      · exact h1
      · exact le_trans (chain'_desc_le_head key zs z h2 y hy2) h1

/-- In a descending-sorted nonempty list the head carries the largest key. -/
theorem chain'_desc_head_max (key : α → ℕ) (x : α) (xs : List α)
    (h : (x :: xs).Chain' (fun a b => key b ≤ key a)) :
    ∀ y ∈ x :: xs, key y ≤ key x := by
  intro y hy
  rcases List.mem_cons.mp hy with rfl | hy2
  · exact le_refl _
  · exact chain'_desc_le_head key xs x h y hy2

/-! ## LiquidityGraph (from `liquidity-graph.service.ts`, shown in the
repository README)

`sqrtPriceX96` and `tick` are carried by the source `GraphEdge` but never
read by any embedded function, so they are omitted from the record. -/

/-- A pool row, as consumed by `buildGraph` (`pool.fee` and
`pool.liquidity` are optional columns). -/
structure Pool where
  dexId : String
  poolAddress : String
  token0 : String
  token1 : String
  fee : Option ℕ
  liquidity : Option ℕ
deriving DecidableEq

structure GraphEdge where
  pool : Pool
  tokenIn : String
  tokenOut : String
  dexId : String
  fee : ℚ
  liquidity : ℕ
deriving DecidableEq

structure LiquidityGraph where
  adjacencyList : List (String × List GraphEdge)
  tokens : List String
  poolCount : ℕ
deriving DecidableEq

/-- `adjacencyList.get(k)!.push(e)` (creating the entry first when absent),
on the insertion-ordered map model. -/
def adjPush : List (String × List GraphEdge) → String → GraphEdge →
    List (String × List GraphEdge)
  | [], k, e => [(k, [e])]
  | (k', es) :: rest, k, e =>
      if k' = k then (k', es ++ [e]) :: rest else (k', es) :: adjPush rest k e

/-- `Set.add` on the insertion-ordered set model. -/
def setAdd (s : List String) (t : String) : List String :=
  if s.contains t then s else s ++ [t]

/-- Lookup of an adjacency bucket (`adjacencyList.get(token) || []`). -/
def lookupEdges (m : List (String × List GraphEdge)) (k : String) :
    List GraphEdge :=
  match m.lookup k with
  | some es => es
  | none => []

/-- The edge fee computed by `buildGraph`:
`const fee = pool.fee ? pool.fee / 1_000_000 : 0.003;` — note the
JavaScript truthiness test, under which an explicit fee of `0` falls back
to the `0.003` default. -/
def edgeFee (pool : Pool) : ℚ :=
  match pool.fee with
  | some f => if f ≠ 0 then (f : ℚ) / 1000000 else 3 / 1000
  | none => 3 / 1000

/-- One iteration of `buildGraph`'s `for (const pool of pools)` loop. -/
def buildGraphStep (st : List (String × List GraphEdge) × List String)
    (pool : Pool) : List (String × List GraphEdge) × List String :=
  let token0 := jsToLower pool.token0
  let token1 := jsToLower pool.token1
  let toks := setAdd (setAdd st.2 token0) token1
  let fee := edgeFee pool
  let liquidity := pool.liquidity.getD 0
  let edge0to1 : GraphEdge :=
    { pool := pool, tokenIn := token0, tokenOut := token1,
      dexId := pool.dexId, fee := fee, liquidity := liquidity }
  let edge1to0 : GraphEdge :=
    { pool := pool, tokenIn := token1, tokenOut := token0,
      dexId := pool.dexId, fee := fee, liquidity := liquidity }
  let adj := adjPush (adjPush st.1 token0 edge0to1) token1 edge1to0
  (adj, toks)

/-- `LiquidityGraphService.buildGraph`, as a pure function of the pool
snapshot. -/
def buildGraph (pools : List Pool) : LiquidityGraph :=
  let st := pools.foldl buildGraphStep ([], [])
  { adjacencyList := st.1, tokens := st.2, poolCount := pools.length }

/-- `LiquidityGraphService.getEdgesFrom`. -/
def getEdgesFrom (g : LiquidityGraph) (token : String) : List GraphEdge :=
  lookupEdges g.adjacencyList (jsToLower token)

/-- `LiquidityGraphService.hasToken`. -/
def hasToken (g : LiquidityGraph) (token : String) : Bool :=
  g.tokens.contains (jsToLower token)

theorem lookupEdges_adjPush_self (m : List (String × List GraphEdge))
    (k : String) (e : GraphEdge) :
    lookupEdges (adjPush m k e) k = lookupEdges m k ++ [e] := by
  induction m with
  | nil => simp [adjPush, lookupEdges, List.lookup]
  | cons kv rest ih =>
      obtain ⟨k', es⟩ := kv
      by_cases h : k' = k
      · subst h
        simp [adjPush, lookupEdges, List.lookup]
      · simp only [adjPush, if_neg h]
        have hbeq : (k == k') = false := by
          simp [BEq.beq]
          exact fun hk => h hk.symm
        simpa [lookupEdges, List.lookup, hbeq] using ih

theorem lookupEdges_adjPush_other (m : List (String × List GraphEdge))
    (k k' : String) (e : GraphEdge) (h : k' ≠ k) :
    lookupEdges (adjPush m k e) k' = lookupEdges m k' := by
  induction m with
  | nil =>
      have hbeq : (k' == k) = false := by simpa using h
      simp [adjPush, lookupEdges, List.lookup, hbeq]
  | cons kv rest ih =>
      obtain ⟨k'', es⟩ := kv
      by_cases h2 : k'' = k
      · subst h2
        have hbeq : (k' == k'') = false := by simpa using h
        simp [adjPush, lookupEdges, List.lookup, hbeq]
      · simp only [adjPush, if_neg h2]
        by_cases h3 : k' = k''
        · subst h3
          simp [lookupEdges, List.lookup]
        · have hbeq : (k' == k'') = false := by simpa using h3
          simpa [lookupEdges, List.lookup, hbeq] using ih

/-- `e ∈ bucket k` is preserved by any `adjPush`. -/
theorem mem_lookupEdges_adjPush (m : List (String × List GraphEdge))
    (k' : String) (e' : GraphEdge) (k : String) (e : GraphEdge)
    (he : e ∈ lookupEdges m k) : e ∈ lookupEdges (adjPush m k' e') k := by
  by_cases h : k = k'
  · subst h
    rw [lookupEdges_adjPush_self]
    exact List.mem_append_left _ he
  · rw [lookupEdges_adjPush_other m k' k e' h]
    exact he

theorem foldl_buildGraphStep_preserves (pools : List Pool)
    (st : List (String × List GraphEdge) × List String) (k : String)
    (e : GraphEdge) (he : e ∈ lookupEdges st.1 k) :
    e ∈ lookupEdges (pools.foldl buildGraphStep st).1 k := by
  induction pools generalizing st with
  | nil => exact he
  | cons p rest ih =>
      refine ih (buildGraphStep st p) ?_
      exact mem_lookupEdges_adjPush _ _ _ _ _ (mem_lookupEdges_adjPush _ _ _ _ _ he)

/-! ## PathfinderService -/

structure RouteHop where
  edge : GraphEdge
  tokenIn : String
  tokenOut : String
  poolAddress : String
  dexId : String
  fee : ℚ
deriving DecidableEq

structure DiscoveredRoute where
  hops : List RouteHop
  tokenIn : String
  tokenOut : String
  path : List String
  totalHops : ℕ
  estimatedGas : ℕ
deriving DecidableEq

/-- Gas estimates per hop type (`GAS_ESTIMATES` constant). -/
def GAS_V3_SINGLE : ℕ := 150000
def GAS_V3_MULTI : ℕ := 100000
def GAS_V2_SINGLE : ℕ := 120000
def GAS_V2_MULTI : ℕ := 80000

/-- `PathfinderService.MAX_HOPS`. -/
def MAX_HOPS : ℕ := 3

/-- `PathfinderService.MAX_ROUTES`. -/
def MAX_ROUTES : ℕ := 10

/-- Substring test on character lists (for `String.prototype.includes`). -/
def containsSub (sub : List Char) : List Char → Bool
  | [] => sub.isEmpty
  | c :: cs => sub.isPrefixOf (c :: cs) || containsSub sub cs

/-- JavaScript `s.includes(sub)`. -/
def jsIncludes (s sub : String) : Bool := containsSub sub.data s.data

/-- `PathfinderService.createRoute`. -/
def createRoute (hops : List RouteHop) (path : List String) : DiscoveredRoute :=
  let estimatedGas := (hops.enum.map (fun ihop =>
    let isV3 := jsIncludes ihop.2.dexId "v3"
    if ihop.1 = 0 then (if isV3 then GAS_V3_SINGLE else GAS_V2_SINGLE)
    else (if isV3 then GAS_V3_MULTI else GAS_V2_MULTI))).sum
  { hops := hops
    tokenIn := match hops with | [] => "" | h :: _ => h.tokenIn
    tokenOut := match hops.getLast? with | some h => h.tokenOut | none => ""
    path := path
    totalHops := hops.length
    estimatedGas := estimatedGas }

/-- `PathfinderService.findRoutesRecursive`.  The source recursion is
bounded by `currentHops.length >= MAX_HOPS`; here `fuel` stands for
`MAX_HOPS - currentHops.length`, so `fuel = 0` is exactly the source's
early return. -/
def findRoutesRec (g : LiquidityGraph) (targetToken : String) :
    ℕ → String → List RouteHop → List String → List String → List DiscoveredRoute
  | 0, _, _, _, _ => []
  | fuel + 1, currentToken, currentHops, currentPath, visitedInPath =>
    (getEdgesFrom g currentToken).bind fun edge =>
      let nextToken := jsToLower edge.tokenOut
      if visitedInPath.contains nextToken ∧ nextToken ≠ targetToken then []
      else
        let hop : RouteHop :=
          { edge := edge, tokenIn := edge.tokenIn, tokenOut := edge.tokenOut,
            poolAddress := edge.pool.poolAddress, dexId := edge.dexId,
            fee := edge.fee }
        let newHops := currentHops ++ [hop]
        let newPath := currentPath ++ [nextToken]
        if nextToken = targetToken then [createRoute newHops newPath]
        else
          findRoutesRec g targetToken fuel nextToken newHops newPath
            (visitedInPath ++ [nextToken])

/-- `PathfinderService.findRoutes` (the pool-discovery and cache
refresh steps are network effects outside the embedded core; the graph is
passed in).  Note the source seeds `visited` with the EMPTY set — the
source token is in `currentPath` but never in `visitedInPath`. -/
def pathfinderFindRoutes (g : LiquidityGraph) (tokenIn tokenOut : String) :
    List DiscoveredRoute :=
  let tokenInLower := jsToLower tokenIn
  let tokenOutLower := jsToLower tokenOut
  if ¬ hasToken g tokenInLower then []
  else if ¬ hasToken g tokenOutLower then []
  else
    let routes :=
      findRoutesRec g tokenOutLower MAX_HOPS tokenInLower [] [tokenInLower] []
    (sortAscBy (fun r => r.estimatedGas) routes).take MAX_ROUTES

/-- The route invariant claimed by the spec: `path.length = hops.length + 1`,
at most `MAX_HOPS` hops, and no token occurs twice in the path except that
the destination may close the path. -/
def routeInvariant (r : DiscoveredRoute) : Prop :=
  r.path.length = r.hops.length + 1 ∧ r.totalHops ≤ MAX_HOPS ∧
    r.path.dropLast.Nodup

instance (r : DiscoveredRoute) : Decidable (routeInvariant r) := by
  unfold routeInvariant
  infer_instance

/-! ### Concrete graph exhibiting the pathfinder cycle-guard gap -/

def poolAB : Pool :=
  { dexId := "uniswap_v3", poolAddress := "0xab", token0 := "a",
    token1 := "b", fee := some 3000, liquidity := some 1000 }

def poolAT : Pool :=
  { dexId := "uniswap_v3", poolAddress := "0xat", token0 := "a",
    token1 := "t", fee := some 3000, liquidity := some 1000 }

def exGraphC2 : LiquidityGraph := buildGraph [poolAB, poolAT]

/-- A pool carrying an explicit fee value of `0`. -/
def poolFeeZero : Pool :=
  { dexId := "uniswap_v3", poolAddress := "0xfz", token0 := "0xA",
    token1 := "0xB", fee := some 0, liquidity := some 1 }

/-- An ordinary concentrated-liquidity pool (used as a witness input). -/
def poolV3 : Pool :=
  { dexId := "uniswap_v3", poolAddress := "0xv3", token0 := "0xAA",
    token1 := "0xBB", fee := some 3000, liquidity := some 7 }

/-- Generalisation of `C9_edge_fee` over the fold's initial state. -/
theorem buildGraph_fold_edges (pools : List Pool)
    (st : List (String × List GraphEdge) × List String) (p : Pool)
    (hp : p ∈ pools) :
    (∃ e ∈ lookupEdges (pools.foldl buildGraphStep st).1 (jsToLower p.token0),
        e.pool = p ∧ e.tokenIn = jsToLower p.token0 ∧
        e.tokenOut = jsToLower p.token1 ∧ e.fee = edgeFee p ∧
        e.liquidity = p.liquidity.getD 0) ∧
    (∃ e ∈ lookupEdges (pools.foldl buildGraphStep st).1 (jsToLower p.token1),
        e.pool = p ∧ e.tokenIn = jsToLower p.token1 ∧
        e.tokenOut = jsToLower p.token0 ∧ e.fee = edgeFee p ∧
        e.liquidity = p.liquidity.getD 0) := by
  induction pools generalizing st with
  | nil => cases hp
  | cons q rest ih =>
      rcases List.mem_cons.mp hp with hpq | hp2
      · subst hpq
        have hfold : (p :: rest).foldl buildGraphStep st =
            rest.foldl buildGraphStep (buildGraphStep st p) := rfl
        rw [hfold]
        constructor
        · refine ⟨GraphEdge.mk p (jsToLower p.token0) (jsToLower p.token1)
              p.dexId (edgeFee p) (p.liquidity.getD 0), ?_,
              rfl, rfl, rfl, rfl, rfl⟩
          refine foldl_buildGraphStep_preserves rest _ _ _ ?_
          show _ ∈ lookupEdges (adjPush (adjPush st.1 (jsToLower p.token0) _)
            (jsToLower p.token1) _) (jsToLower p.token0)
          refine mem_lookupEdges_adjPush _ _ _ _ _ ?_
          rw [lookupEdges_adjPush_self]
          exact List.mem_append_right _ (by simp)
        · refine ⟨GraphEdge.mk p (jsToLower p.token1) (jsToLower p.token0)
              p.dexId (edgeFee p) (p.liquidity.getD 0), ?_,
              rfl, rfl, rfl, rfl, rfl⟩
          refine foldl_buildGraphStep_preserves rest _ _ _ ?_
          show _ ∈ lookupEdges (adjPush (adjPush st.1 (jsToLower p.token0) _)
            (jsToLower p.token1) _) (jsToLower p.token1)
          rw [lookupEdges_adjPush_self]
          exact List.mem_append_right _ (by simp)
      · exact ih (buildGraphStep st q) hp2

/-- C9 (counterexample): a pool with an explicit fee value of `0` receives
the `0.003` default, not fee `0` — `pool.fee ? pool.fee / 1_000_000 : 0.003`
is a JavaScript truthiness test, and `0` is falsy. -/
theorem C9_fee_zero_counterexample :
    poolFeeZero.fee = some 0 ∧
    (getEdgesFrom (buildGraph [poolFeeZero]) "0xa").map GraphEdge.fee =
      [3 / 1000] ∧
    ∀ e ∈ getEdgesFrom (buildGraph [poolFeeZero]) "0xa", e.fee ≠ 0 := by
  refine ⟨rfl, rfl, ?_⟩
  intro e he
  fin_cases he
  norm_num [edgeFee, poolFeeZero]

/-- C9 (amended): for every pool ingested by the graph builder, both
directed edges are present in the adjacency buckets of its (lower-cased)
tokens, and their fee is the pool's integer fee divided by 1,000,000 when
an explicit NONZERO fee is present, and `0.003` when the fee is absent
or zero. -/
theorem C9_edge_fee (pools : List Pool) (p : Pool) (hp : p ∈ pools) :
    (∃ e ∈ getEdgesFrom (buildGraph pools) p.token0,
        e.pool = p ∧ e.tokenIn = jsToLower p.token0 ∧
        e.tokenOut = jsToLower p.token1 ∧
        e.fee = (match p.fee with
                 | some f => if f ≠ 0 then (f : ℚ) / 1000000 else 3 / 1000
                 | none => 3 / 1000)) ∧
    (∃ e ∈ getEdgesFrom (buildGraph pools) p.token1,
        e.pool = p ∧ e.tokenIn = jsToLower p.token1 ∧
        e.tokenOut = jsToLower p.token0 ∧
        e.fee = (match p.fee with
                 | some f => if f ≠ 0 then (f : ℚ) / 1000000 else 3 / 1000
                 | none => 3 / 1000)) := by
  have h := buildGraph_fold_edges pools ([], []) p hp
  have hfee : edgeFee p = (match p.fee with
      | some f => if f ≠ 0 then (f : ℚ) / 1000000 else 3 / 1000
      | none => 3 / 1000) := rfl
  constructor
  · obtain ⟨e, he, h1, h2, h3, h4, _⟩ := h.1
    exact ⟨e, he, h1, h2, h3, hfee ▸ h4⟩
  · obtain ⟨e, he, h1, h2, h3, h4, _⟩ := h.2
    exact ⟨e, he, h1, h2, h3, hfee ▸ h4⟩

theorem C9_edge_fee_witness :
    poolV3 ∈ [poolV3] ∧
    (∃ e ∈ getEdgesFrom (buildGraph [poolV3]) poolV3.token0,
        e.pool = poolV3 ∧ e.tokenIn = jsToLower poolV3.token0 ∧
        e.tokenOut = jsToLower poolV3.token1 ∧
        e.fee = (match poolV3.fee with
                 | some f => if f ≠ 0 then (f : ℚ) / 1000000 else 3 / 1000
                 | none => 3 / 1000)) :=
  ⟨by decide, (C9_edge_fee [poolV3] poolV3 (by decide)).1⟩

/-- C2: the DFS pathfinder can return a route in which the SOURCE token
reappears as an intermediate token, because `findRoutes` seeds
`visitedInPath` with the empty set (the source token is in `currentPath`
but never in the visited set).  On the two-pool graph a–b, a–t the route
`a → b → a → t` is returned, violating the claimed path-uniqueness
invariant. -/
theorem C2_dfs_repeats_source_token :
    ∃ r ∈ pathfinderFindRoutes exGraphC2 "a" "t",
      r.path = ["a", "b", "a", "t"] ∧ r.path.dropLast = ["a", "b", "a"] ∧
      ¬ routeInvariant r := by
  decide

/-! ## RouteQuoteService (second class of `pathfinder.service.ts`)

The on-chain pricing calls are modelled as oracle functions collected in a
`QuoteEnv`: `quoter` is `quoteExactInputSingle(tokenIn, tokenOut, fee,
amountIn)`, `router` is `getAmountsOut(amountIn, path)`, and
`hasContracts` is the `DEX_CONTRACTS[chainId]?.[dexId]` presence test.
`none` stands for a reverted/failed call. -/

inductive DexType
  | ammV2
  | ammV3
  | curveTy
  | balancerTy
deriving DecidableEq

/-- The `DEX_INFO` table (`constants/dex-contracts.ts`), reduced to the
`type` field, which is all the embedded code reads besides `name`. -/
def dexInfoType (dexId : String) : Option DexType :=
  match dexId with
  | "uniswap_v3" => some .ammV3
  | "pancakeswap_v3" => some .ammV3
  | "sushiswap_v3" => some .ammV3
  | "quickswap_v3" => some .ammV3
  | "uniswap_v2" => some .ammV2
  | "sushiswap" => some .ammV2
  | "pancakeswap_v2" => some .ammV2
  | "quickswap" => some .ammV2
  | "camelot" => some .ammV2
  | "traderjoe" => some .ammV2
  | "biswap" => some .ammV2
  | "apeswap" => some .ammV2
  | "spookyswap" => some .ammV2
  | "pangolin" => some .ammV2
  | "curve" => some .curveTy
  | "balancer" => some .balancerTy
  | _ => none

structure QuoteEnv where
  quoter : String → String → ℕ → ℕ → Option ℕ
  router : List String → ℕ → Option (List ℕ)
  hasContracts : String → Bool

structure HopQuoteData where
  poolAddress : String
  dexId : String
  tokenIn : String
  tokenOut : String
  amountIn : ℕ
  amountOut : ℕ
  fee : Option ℕ
deriving DecidableEq

/-- `RouteQuote` (the `amountOutFormatted` display string is derived from
`amountOut` and is modelled at its use sites as `amountOut / 10 ^ d`). -/
structure RouteQuote where
  route : DiscoveredRoute
  amountIn : ℕ
  amountOut : ℕ
  priceImpact : ℚ
  estimatedGas : ℕ
  hopsData : List HopQuoteData
deriving DecidableEq

/-- `RouteQuoteService.estimatePriceImpact`. -/
def estimatePriceImpact (hops : ℕ) (amountIn : ℕ) : ℚ :=
  let baseImpact : ℚ := 3 / 10
  let amountFactor : ℚ := (amountIn : ℚ) / 10 ^ 18
  let amountImpact : ℚ := min (amountFactor * (1 / 1000)) 1
  baseImpact * hops + amountImpact

/-- `const fee = hop.edge.pool.fee || 3000;` — a truthiness test, so an
absent or zero pool fee becomes `3000`. -/
def effectiveV3Fee (p : Pool) : ℕ :=
  match p.fee with
  | some f => if f ≠ 0 then f else 3000
  | none => 3000

/-- `RouteQuoteService.getV3HopQuote`: a SINGLE `quoteExactInputSingle`
call at the pool's recorded fee — no fee-tier search here. -/
def routeGetV3HopQuote (quoter : String → String → ℕ → ℕ → Option ℕ)
    (hop : RouteHop) (amountIn : ℕ) : Option HopQuoteData :=
  match quoter hop.tokenIn hop.tokenOut (effectiveV3Fee hop.edge.pool) amountIn with
  | some amountOut =>
      some { poolAddress := hop.poolAddress, dexId := hop.dexId,
             tokenIn := hop.tokenIn, tokenOut := hop.tokenOut,
             amountIn := amountIn, amountOut := amountOut,
             fee := some (effectiveV3Fee hop.edge.pool) }
  | none => none

/-- `RouteQuoteService.getV2HopQuote` (`amounts[amounts.length - 1]`;
an empty reply is a failed attempt). -/
def routeGetV2HopQuote (router : List String → ℕ → Option (List ℕ))
    (hop : RouteHop) (amountIn : ℕ) : Option HopQuoteData :=
  match router [hop.tokenIn, hop.tokenOut] amountIn with
  | some amounts =>
      match amounts.getLast? with
      | some amountOut =>
          some { poolAddress := hop.poolAddress, dexId := hop.dexId,
                 tokenIn := hop.tokenIn, tokenOut := hop.tokenOut,
                 amountIn := amountIn, amountOut := amountOut, fee := none }
      | none => none
  | none => none

/-- `RouteQuoteService.getHopQuote`. -/
def getHopQuote (env : QuoteEnv) (hop : RouteHop) (amountIn : ℕ) :
    Option HopQuoteData :=
  match dexInfoType hop.dexId with
  | none => none
  | some t =>
      if env.hasContracts hop.dexId then
        match t with
        | .ammV3 => routeGetV3HopQuote env.quoter hop amountIn
        | .ammV2 => routeGetV2HopQuote env.router hop amountIn
        | _ => none
      else none

/-- The `for (const hop of route.hops)` simulation loop of
`getQuoteForRoute`: feeds each hop's output into the next hop. -/
def quoteHopsLoop (env : QuoteEnv) :
    List RouteHop → ℕ → Option (List HopQuoteData × ℕ)
  | [], currentAmount => some ([], currentAmount)
  | hop :: rest, currentAmount =>
      match getHopQuote env hop currentAmount with
      | none => none
      | some hq =>
          match quoteHopsLoop env rest hq.amountOut with
          | none => none
          | some (tl, final) => some (hq :: tl, final)

/-- `RouteQuoteService.getQuoteForRoute`: `none` when any hop fails. -/
def getQuoteForRoute (env : QuoteEnv) (route : DiscoveredRoute)
    (amountIn : ℕ) : Option RouteQuote :=
  match quoteHopsLoop env route.hops amountIn with
  | none => none
  | some (hopsData, amountOut) =>
      some { route := route, amountIn := amountIn, amountOut := amountOut,
             priceImpact := estimatePriceImpact route.totalHops amountIn,
             estimatedGas := route.estimatedGas, hopsData := hopsData }

/-- `RouteQuoteService.getQuotesForRoutes`: quote all candidate routes
(concurrently in the source — their oracle calls are independent), drop
the failed ones, sort by `amountOut` descending. -/
def getQuotesForRoutes (env : QuoteEnv) (routes : List DiscoveredRoute)
    (amountIn : ℕ) : List RouteQuote :=
  sortDescBy (fun q => q.amountOut)
    (routes.filterMap (fun r => getQuoteForRoute env r amountIn))

/-- Sequential chaining of hop-level quotes: the first hop consumes `a`,
each later hop consumes the previous hop's output, and the final output
is `b`. -/
def hopsChain : List HopQuoteData → ℕ → ℕ → Prop
  | [], a, b => a = b
  | h :: t, a, b => h.amountIn = a ∧ hopsChain t h.amountOut b

theorem routeGetV3HopQuote_amountIn (quoter : String → String → ℕ → ℕ → Option ℕ)
    (hop : RouteHop) (a : ℕ) (hq : HopQuoteData)
    (h : routeGetV3HopQuote quoter hop a = some hq) : hq.amountIn = a := by
  unfold routeGetV3HopQuote at h
  split at h
  · cases h
    rfl
  · cases h

theorem routeGetV2HopQuote_amountIn (router : List String → ℕ → Option (List ℕ))
    (hop : RouteHop) (a : ℕ) (hq : HopQuoteData)
    (h : routeGetV2HopQuote router hop a = some hq) : hq.amountIn = a := by
  unfold routeGetV2HopQuote at h
  split at h
  · split at h
    · cases h
      rfl
    · cases h
  · cases h

theorem getHopQuote_amountIn (env : QuoteEnv) (hop : RouteHop) (a : ℕ)
    (hq : HopQuoteData) (h : getHopQuote env hop a = some hq) :
    hq.amountIn = a := by
  unfold getHopQuote at h
  split at h
  · cases h
  · split at h
    · split at h
      · exact routeGetV3HopQuote_amountIn env.quoter hop a hq h
      · exact routeGetV2HopQuote_amountIn env.router hop a hq h
      · cases h
    · cases h

theorem quoteHopsLoop_chain (env : QuoteEnv) (hops : List RouteHop)
    (a : ℕ) (l : List HopQuoteData) (b : ℕ)
    (h : quoteHopsLoop env hops a = some (l, b)) : hopsChain l a b := by
  induction hops generalizing a l with
  | nil =>
      simp only [quoteHopsLoop] at h
      cases h
      rfl
  | cons hop rest ih =>
      simp only [quoteHopsLoop] at h
      split at h
      · cases h
      next hq hhq =>
        split at h
        · cases h
        next tl fin hloop =>
          cases h
          exact ⟨getHopQuote_amountIn env hop a hq hhq, ih hq.amountOut tl hloop⟩

/-- `filterMap` ignores the removal of an element that maps to `none`. -/
theorem filterMap_erase_of_none [DecidableEq α] (f : α → Option β)
    (l : List α) (a : α) (ha : f a = none) :
    (l.erase a).filterMap f = l.filterMap f := by
  induction l with
  | nil => rfl
  | cons x xs ih =>
      by_cases hx : x = a
      · subst hx
        rw [List.erase_cons_head]
        simp only [List.filterMap_cons, ha]
      · rw [List.erase_cons_tail (by simpa using hx)]
        cases hfx : f x <;> simp [List.filterMap_cons, hfx, ih]

/-- C10: the route-quoting aggregate returns exactly the quotes of the
routes whose every hop succeeded (a permutation of the per-route
`filterMap`), sorted descending on `amountOut`, and within each returned
quote the hop amounts chain sequentially from the requested input to the
quote's output. -/
theorem C10_route_quotes_sorted_chained (env : QuoteEnv)
    (routes : List DiscoveredRoute) (amountIn : ℕ) :
    List.Perm (getQuotesForRoutes env routes amountIn)
      (routes.filterMap (fun r => getQuoteForRoute env r amountIn)) ∧
    (getQuotesForRoutes env routes amountIn).Chain'
      (fun a b => b.amountOut ≤ a.amountOut) ∧
    ∀ q ∈ getQuotesForRoutes env routes amountIn,
      q.amountIn = amountIn ∧ hopsChain q.hopsData amountIn q.amountOut := by
  refine ⟨sortDescBy_perm _ _, sortDescBy_chain' _ _, ?_⟩
  intro q hq
  unfold getQuotesForRoutes at hq
  have hq2 : q ∈ routes.filterMap (fun r => getQuoteForRoute env r amountIn) :=
    (sortDescBy_perm (fun q => q.amountOut) _).mem_iff.mp hq
  obtain ⟨r, hr, hqr⟩ := List.mem_filterMap.mp hq2
  unfold getQuoteForRoute at hqr
  split at hqr
  · cases hqr
  next hopsData amountOut hloop =>
    cases hqr
    exact ⟨rfl, quoteHopsLoop_chain env r.hops amountIn hopsData amountOut hloop⟩

/-! ### Concrete quoting environment for witnesses -/

def edgeW : GraphEdge := GraphEdge.mk poolV3 "0xaa" "0xbb" "uniswap_v3" (3 / 1000) 7

def hopW : RouteHop := RouteHop.mk edgeW "0xaa" "0xbb" "0xv3" "uniswap_v3" (3 / 1000)

def routeW : DiscoveredRoute :=
  DiscoveredRoute.mk [hopW] "0xaa" "0xbb" ["0xaa", "0xbb"] 1 150000

def hopV2W : RouteHop := RouteHop.mk edgeW "0xaa" "0xbb" "0xv2" "sushiswap" (3 / 1000)

def routeV2W : DiscoveredRoute :=
  DiscoveredRoute.mk [hopV2W] "0xaa" "0xbb" ["0xaa", "0xbb"] 1 120000

/-- An oracle environment in which every concentrated-liquidity quote
doubles the input and every constant-product call fails. -/
def envW : QuoteEnv :=
  QuoteEnv.mk (fun _ _ _ amt => some (2 * amt)) (fun _ _ => none) (fun _ => true)

theorem C10_route_quotes_sorted_chained_witness :
    ((getQuotesForRoutes envW [routeW] 100).map (fun q => q.amountOut) = [200]) ∧
    ∀ q ∈ getQuotesForRoutes envW [routeW] 100,
      q.amountIn = 100 ∧ hopsChain q.hopsData 100 q.amountOut :=
  ⟨rfl, (C10_route_quotes_sorted_chained envW [routeW] 100).2.2⟩

/-- C7: a route one of whose hop quote attempts fails yields `none`
(caught failure, not an exception), is excluded from the returned quote
list, and its failure leaves the sibling routes' quotes untouched: the
aggregate result is exactly the one computed without the failing route. -/
theorem C7_failed_route_excluded (env : QuoteEnv)
    (routes : List DiscoveredRoute) (amountIn : ℕ) (r : DiscoveredRoute)
    (hr : r ∈ routes) (hfail : getQuoteForRoute env r amountIn = none) :
    getQuotesForRoutes env routes amountIn =
      getQuotesForRoutes env (routes.erase r) amountIn := by
  unfold getQuotesForRoutes
  rw [filterMap_erase_of_none _ routes r hfail]

theorem C7_failed_route_excluded_witness :
    routeV2W ∈ [routeW, routeV2W] ∧
    getQuoteForRoute envW routeV2W 100 = none ∧
    getQuotesForRoutes envW [routeW, routeV2W] 100 =
      getQuotesForRoutes envW ([routeW, routeV2W].erase routeV2W) 100 :=
  ⟨by simp, rfl,
    C7_failed_route_excluded envW [routeW, routeV2W] 100 routeV2W (by simp) rfl⟩

/-! ## DexQuoteService: V3 packed path encoding (`encodeV3Path`)

Addresses and the packed path are modelled as character lists.  JavaScript
`fee.toString(16)` renders minimal lowercase hexadecimal; `.padStart(6,
'0')` left-pads it to six characters. -/

def hexDigitChar (n : ℕ) : Char :=
  match n with
  | 0 => '0' | 1 => '1' | 2 => '2' | 3 => '3' | 4 => '4'
  | 5 => '5' | 6 => '6' | 7 => '7' | 8 => '8' | 9 => '9'
  | 10 => 'a' | 11 => 'b' | 12 => 'c' | 13 => 'd' | 14 => 'e'
  | _ => 'f'

def hexDigitVal (c : Char) : ℕ :=
  match c with
  | '0' => 0 | '1' => 1 | '2' => 2 | '3' => 3 | '4' => 4
  | '5' => 5 | '6' => 6 | '7' => 7 | '8' => 8 | '9' => 9
  | 'a' => 10 | 'b' => 11 | 'c' => 12 | 'd' => 13 | 'e' => 14 | 'f' => 15
  | _ => 0

/-- `n.toString(16)`: minimal lowercase hexadecimal rendering. -/
def natToHex (n : ℕ) : List Char :=
  if h : n < 16 then [hexDigitChar n]
  else natToHex (n / 16) ++ [hexDigitChar (n % 16)]
decreasing_by exact Nat.div_lt_self (by omega) (by omega)

/-- `.padStart(6, '0')`. -/
def padStart6 (l : List Char) : List Char :=
  List.replicate (6 - l.length) '0' ++ l

/-- `fees[i].toString(16).padStart(6, '0')`. -/
def feeHex (fee : ℕ) : List Char := padStart6 (natToHex fee)

/-- Hexadecimal value of a digit string (for the decoder). -/
def hexValList (l : List Char) : ℕ :=
  l.foldl (fun acc c => acc * 16 + hexDigitVal c) 0

/-- The `for (let i = 0; i < fees.length; i++)` accumulation loop of
`encodeV3Path`: append each fee (6 hex chars) and the next token
lower-cased with its `0x` prefix sliced off. -/
def encodeV3PathGo : List Char → List ℕ → List (List Char) → List Char
  | acc, [], _ => acc
  | acc, _ :: _, [] => acc
  | acc, fee :: fees, tok :: toks =>
      encodeV3PathGo (acc ++ feeHex fee ++ (tok.map jsToLowerChar).drop 2)
        fees toks

/-- `DexQuoteService.encodeV3Path` — throws (here: `none`) exactly when
`tokens.length !== fees.length + 1`. -/
def encodeV3Path (tokens : List (List Char)) (fees : List ℕ) :
    Option (List Char) :=
  if tokens.length ≠ fees.length + 1 then none
  else
    match tokens with
    | [] => none
    | t0 :: rest => some (encodeV3PathGo (t0.map jsToLowerChar) fees rest)

/-- Fixed-offset decoder of a 3-token, 2-fee packed path, modelled from
the spec's round-trip sentence: token (42 chars with `0x`), fee (6),
token (40), fee (6), token (40); the inner tokens are re-prefixed with
`0x`. -/
def decodeV3Path (s : List Char) :
    List Char × ℕ × List Char × ℕ × List Char :=
  (s.take 42,
   hexValList ((s.drop 42).take 6),
   '0' :: 'x' :: (s.drop 48).take 40,
   hexValList ((s.drop 88).take 6),
   '0' :: 'x' :: (s.drop 94).take 40)

theorem hexDigitVal_hexDigitChar (d : ℕ) (h : d < 16) :
    hexDigitVal (hexDigitChar d) = d := by
  interval_cases d <;> rfl

theorem hexValList_append_singleton (l : List Char) (c : Char) :
    hexValList (l ++ [c]) = hexValList l * 16 + hexDigitVal c := by
  unfold hexValList
  rw [List.foldl_append]
  rfl

theorem hexValList_natToHex (n : ℕ) : hexValList (natToHex n) = n := by
  induction n using Nat.strong_induction_on with
  | _ n ih =>
      unfold natToHex
      by_cases h : n < 16
      · rw [dif_pos h]
        show 0 * 16 + hexDigitVal (hexDigitChar n) = n
        rw [hexDigitVal_hexDigitChar n h]
        omega
      · rw [dif_neg h, hexValList_append_singleton,
          ih (n / 16) (Nat.div_lt_self (by omega) (by omega)),
          hexDigitVal_hexDigitChar _ (Nat.mod_lt n (by omega))]
        omega

theorem hexValList_replicate_zero (k : ℕ) (l : List Char) :
    hexValList (List.replicate k '0' ++ l) = hexValList l := by
  induction k with
  | zero => rfl
  | succ k ih =>
      show hexValList ('0' :: (List.replicate k '0' ++ l)) = hexValList l
      unfold hexValList at ih ⊢
      simpa using ih

theorem hexValList_feeHex (f : ℕ) : hexValList (feeHex f) = f := by
  unfold feeHex padStart6
  rw [hexValList_replicate_zero, hexValList_natToHex]

theorem natToHex_length_le (k : ℕ) : ∀ n : ℕ, 1 ≤ k → n < 16 ^ k →
    (natToHex n).length ≤ k := by
  induction k with
  | zero => omega
  | succ k ih =>
      intro n _ hn
      unfold natToHex
      by_cases h : n < 16
      · rw [dif_pos h]
        simp
      · rw [dif_neg h]
        have hk1 : 1 ≤ k := by
          rcases Nat.eq_zero_or_pos k with hk | hk
          · subst hk
            simp at hn
            omega
          · exact hk
        have hdiv : n / 16 < 16 ^ k := by
          rw [Nat.div_lt_iff_lt_mul (by omega)]
          calc n < 16 ^ (k + 1) := hn
            _ = 16 ^ k * 16 := by ring
        have := ih (n / 16) hk1 hdiv
        simp only [List.length_append, List.length_cons, List.length_nil]
        omega

theorem feeHex_length (f : ℕ) (hf : f < 16 ^ 6) : (feeHex f).length = 6 := by
  unfold feeHex padStart6
  have h := natToHex_length_le 6 f (by norm_num) hf
  simp only [List.length_append, List.length_replicate]
  omega

theorem encodeV3Path_none_iff (tokens : List (List Char)) (fees : List ℕ) :
    encodeV3Path tokens fees = none ↔ tokens.length ≠ fees.length + 1 := by
  unfold encodeV3Path
  by_cases h : tokens.length = fees.length + 1
  · rw [if_neg (by omega)]
    cases tokens with
    | nil => simp at h
    | cons t0 rest => simp [h]
  · simp [h]

/-- C5: encoding a 3-token, 2-fee concentrated-liquidity path produces the
packed concatenation (lower-cased token, 6-hex-char fee, …), decoding it
at the fixed offsets (token, fee, token, fee, token) recovers exactly the
case-normalised tokens and the fee values, and encoding fails precisely
when the token count does not equal the fee count plus one. -/
theorem C5_encode_decode_roundtrip (t0 t1 t2 : List Char) (f1 f2 : ℕ)
    (h0 : t0.length = 42) (h1 : t1.length = 42) (h2 : t2.length = 42)
    (hp1 : (t1.map jsToLowerChar).take 2 = ['0', 'x'])
    (hp2 : (t2.map jsToLowerChar).take 2 = ['0', 'x'])
    (hf1 : f1 < 16 ^ 6) (hf2 : f2 < 16 ^ 6) :
    (∃ s, encodeV3Path [t0, t1, t2] [f1, f2] = some s ∧
       decodeV3Path s = (t0.map jsToLowerChar, f1, t1.map jsToLowerChar, f2,
         t2.map jsToLowerChar)) ∧
    ∀ (toks : List (List Char)) (fees : List ℕ),
      encodeV3Path toks fees = none ↔ toks.length ≠ fees.length + 1 := by
  refine ⟨?_, encodeV3Path_none_iff⟩
  set t0L := t0.map jsToLowerChar with ht0L
  set t1L := t1.map jsToLowerChar with ht1L
  set t2L := t2.map jsToLowerChar with ht2L
  set fh1 := feeHex f1 with hfh1
  set fh2 := feeHex f2 with hfh2
  have l0 : t0L.length = 42 := by simpa [ht0L] using h0
  have l1d : (t1L.drop 2).length = 40 := by simp [ht1L, h1]
  have l2d : (t2L.drop 2).length = 40 := by simp [ht2L, h2]
  have lfh1 : fh1.length = 6 := feeHex_length f1 hf1
  have lfh2 : fh2.length = 6 := feeHex_length f2 hf2
  refine ⟨t0L ++ fh1 ++ t1L.drop 2 ++ fh2 ++ t2L.drop 2, ?_, ?_⟩
  · show encodeV3Path [t0, t1, t2] [f1, f2] = _
    unfold encodeV3Path
    rw [if_neg (by simp)]
    show some (encodeV3PathGo t0L [f1, f2] [t1, t2]) = _
    simp only [encodeV3PathGo]
  · have ht1split : t1L = '0' :: 'x' :: t1L.drop 2 := by
      have := List.take_append_drop 2 t1L
      rw [hp1] at this
      exact this.symm
    have ht2split : t2L = '0' :: 'x' :: t2L.drop 2 := by
      have := List.take_append_drop 2 t2L
      rw [hp2] at this
      exact this.symm
    unfold decodeV3Path
    refine Prod.ext ?_ (Prod.ext ?_ (Prod.ext ?_ (Prod.ext ?_ ?_)))
    · show (t0L ++ fh1 ++ t1L.drop 2 ++ fh2 ++ t2L.drop 2).take 42 = t0L
      have hs : t0L ++ fh1 ++ t1L.drop 2 ++ fh2 ++ t2L.drop 2 =
          t0L ++ (fh1 ++ (t1L.drop 2 ++ (fh2 ++ t2L.drop 2))) := by
        simp [List.append_assoc]
      rw [hs, List.take_left' l0]
    · show hexValList (((t0L ++ fh1 ++ t1L.drop 2 ++ fh2 ++ t2L.drop 2).drop 42).take 6) = f1
      have hs : t0L ++ fh1 ++ t1L.drop 2 ++ fh2 ++ t2L.drop 2 =
          t0L ++ (fh1 ++ (t1L.drop 2 ++ (fh2 ++ t2L.drop 2))) := by
        simp [List.append_assoc]
      rw [hs, List.drop_left' l0, List.take_left' lfh1, hexValList_feeHex]
    · show '0' :: 'x' :: ((t0L ++ fh1 ++ t1L.drop 2 ++ fh2 ++ t2L.drop 2).drop 48).take 40 = t1L
      have hs : t0L ++ fh1 ++ t1L.drop 2 ++ fh2 ++ t2L.drop 2 =
          (t0L ++ fh1) ++ (t1L.drop 2 ++ (fh2 ++ t2L.drop 2)) := by
        simp [List.append_assoc]
      have l48 : (t0L ++ fh1).length = 48 := by
        simp [l0, lfh1]
      rw [hs, List.drop_left' l48, List.take_left' l1d]
      exact ht1split.symm
    · show hexValList (((t0L ++ fh1 ++ t1L.drop 2 ++ fh2 ++ t2L.drop 2).drop 88).take 6) = f2
      have hs : t0L ++ fh1 ++ t1L.drop 2 ++ fh2 ++ t2L.drop 2 =
          (t0L ++ fh1 ++ t1L.drop 2) ++ (fh2 ++ t2L.drop 2) := by
        simp [List.append_assoc]
      have l88 : (t0L ++ fh1 ++ t1L.drop 2).length = 88 := by
        simp [l0, lfh1, l1d]
      rw [hs, List.drop_left' l88, List.take_left' lfh2, hexValList_feeHex]
    · show '0' :: 'x' :: ((t0L ++ fh1 ++ t1L.drop 2 ++ fh2 ++ t2L.drop 2).drop 94).take 40 = t2L
      have hs : t0L ++ fh1 ++ t1L.drop 2 ++ fh2 ++ t2L.drop 2 =
          (t0L ++ fh1 ++ t1L.drop 2 ++ fh2) ++ t2L.drop 2 := by
        simp [List.append_assoc]
      have l94 : (t0L ++ fh1 ++ t1L.drop 2 ++ fh2).length = 94 := by
        simp [l0, lfh1, l1d, lfh2]
      rw [hs, List.drop_left' l94, ← l2d, List.take_length]
      exact ht2split.symm

theorem C5_encode_decode_roundtrip_witness :
    ∃ s, encodeV3Path
        ["0x1111111111111111111111111111111111111111".data,
         "0xAAAAaaaaAAAAaaaaAAAAaaaaAAAAaaaaAAAAaaaa".data,
         "0x2222222222222222222222222222222222222222".data] [3000, 500] =
      some s ∧
    decodeV3Path s =
      ("0x1111111111111111111111111111111111111111".data.map jsToLowerChar,
       3000,
       "0xAAAAaaaaAAAAaaaaAAAAaaaaAAAAaaaaAAAAaaaa".data.map jsToLowerChar,
       500,
       "0x2222222222222222222222222222222222222222".data.map jsToLowerChar) :=
  (C5_encode_decode_roundtrip _ _ _ 3000 500 (by decide) (by decide)
    (by decide) (by decide) (by decide) (by decide) (by decide)).1

/-! ## DexQuoteService: per-venue quoting (`getV3SingleHopQuote`) -/

/-- `DexQuoteResult` restricted to the fields read by the embedded
functions (`feeTiers`, `path`, `pathEncoded`, `isMultiHop`,
`liquidityScore` are carried along in the source but never branched on by
the code under verification). -/
structure DexQuote where
  dexId : String
  dexName : String
  amountOut : ℕ
  estimatedGas : ℕ
  feeTier : Option ℕ
  priceImpact : ℚ
deriving DecidableEq

/-- `V3_FEE_TIERS = [500, 3000, 10000]` (`constants/dex-contracts.ts`). -/
def V3_FEE_TIERS : List ℕ := [500, 3000, 10000]

/-- The fee-tier loop of `getV3SingleHopQuote`: starts from
`bestAmountOut = 0n`, `bestFee = V3_FEE_TIERS[1]` (3000) and keeps a tier
only on a STRICT improvement (`amountOut > bestAmountOut`); a reverted
tier is skipped. -/
def v3BestTier (quoter : String → String → ℕ → ℕ → Option ℕ)
    (tokenIn tokenOut : String) (amountIn : ℕ) : ℕ × ℕ :=
  V3_FEE_TIERS.foldl (fun best fee =>
    match quoter tokenIn tokenOut fee amountIn with
    | some amountOut => if best.1 < amountOut then (amountOut, fee) else best
    | none => best) (0, 3000)

/-- `DexQuoteService.getV3SingleHopQuote`: `null` when no tier produced a
positive output, otherwise the best tier's quote. -/
def getV3SingleHopQuote (quoter : String → String → ℕ → ℕ → Option ℕ)
    (dexId dexName tokenIn tokenOut : String) (amountIn : ℕ) :
    Option DexQuote :=
  if (v3BestTier quoter tokenIn tokenOut amountIn).1 = 0 then none
  else
    some { dexId := dexId, dexName := dexName,
           amountOut := (v3BestTier quoter tokenIn tokenOut amountIn).1,
           estimatedGas := 150000,
           feeTier := some (v3BestTier quoter tokenIn tokenOut amountIn).2,
           priceImpact := 1 / 2 }

/-- A quoter on which tiers 500 and 3000 tie at the best output. -/
def tieQuoter : String → String → ℕ → ℕ → Option ℕ :=
  fun _ _ fee _ => if fee = 500 then some 100
    else if fee = 3000 then some 100 else some 50

/-- A quoter whose tier 3000 clearly beats tier 500. -/
def tier3000Quoter : String → String → ℕ → ℕ → Option ℕ :=
  fun _ _ fee _ => if fee = 3000 then some 200 else some 10

/-- A hop through a pool whose recorded fee tier is 500. -/
def hopPoolFee500 : RouteHop :=
  RouteHop.mk
    (GraphEdge.mk
      { dexId := "uniswap_v3", poolAddress := "0x500", token0 := "0xaa",
        token1 := "0xbb", fee := some 500, liquidity := some 5 }
      "0xaa" "0xbb" "uniswap_v3" (500 / 1000000) 5)
    "0xaa" "0xbb" "0x500" "uniswap_v3" (500 / 1000000)

/-- C6 (counterexample): (i) in direct pair quoting a tie between tiers
500 and 3000 is resolved to tier 500 — the first tier tried — not to the
default/middle tier 3000 as claimed (`amountOut > bestAmountOut` is
strict, so an equal later output never replaces the incumbent); (ii) in
per-route hop quoting no fee-tier search happens at all: with the pool's
recorded tier 500 the hop keeps output 10 even though tier 3000 would
yield 200. -/
theorem C6_tiebreak_counterexample :
    (tieQuoter "0xaa" "0xbb" 500 10 = some 100 ∧
     tieQuoter "0xaa" "0xbb" 3000 10 = some 100 ∧
     (getV3SingleHopQuote tieQuoter "uniswap_v3" "Uniswap V3" "0xaa" "0xbb"
        10).map (fun q => q.feeTier) = some (some 500)) ∧
    (tier3000Quoter "0xaa" "0xbb" 3000 7 = some 200 ∧
     (routeGetV3HopQuote tier3000Quoter hopPoolFee500 7).map
        (fun h => h.amountOut) = some 10) := by
  refine ⟨⟨rfl, rfl, rfl⟩, rfl, rfl⟩

theorem v3BestTier_spec (quoter : String → String → ℕ → ℕ → Option ℕ)
    (tokenIn tokenOut : String) (amountIn : ℕ) :
    ((quoter tokenIn tokenOut 500 amountIn).getD 0 ≤
        (v3BestTier quoter tokenIn tokenOut amountIn).1 ∧
     (quoter tokenIn tokenOut 3000 amountIn).getD 0 ≤
        (v3BestTier quoter tokenIn tokenOut amountIn).1 ∧
     (quoter tokenIn tokenOut 10000 amountIn).getD 0 ≤
        (v3BestTier quoter tokenIn tokenOut amountIn).1) ∧
    ((v3BestTier quoter tokenIn tokenOut amountIn).1 =
        (quoter tokenIn tokenOut 500 amountIn).getD 0 ∨
     (v3BestTier quoter tokenIn tokenOut amountIn).1 =
        (quoter tokenIn tokenOut 3000 amountIn).getD 0 ∨
     (v3BestTier quoter tokenIn tokenOut amountIn).1 =
        (quoter tokenIn tokenOut 10000 amountIn).getD 0) ∧
    (v3BestTier quoter tokenIn tokenOut amountIn).2 =
      (if (v3BestTier quoter tokenIn tokenOut amountIn).1 = 0 then 3000
       else if (quoter tokenIn tokenOut 500 amountIn).getD 0 =
           (v3BestTier quoter tokenIn tokenOut amountIn).1 then 500
       else if (quoter tokenIn tokenOut 3000 amountIn).getD 0 =
           (v3BestTier quoter tokenIn tokenOut amountIn).1 then 3000
       else 10000) := by
  unfold v3BestTier V3_FEE_TIERS
  rcases h5 : quoter tokenIn tokenOut 500 amountIn with _ | v5 <;>
    rcases h3 : quoter tokenIn tokenOut 3000 amountIn with _ | v3 <;>
    rcases h10 : quoter tokenIn tokenOut 10000 amountIn with _ | v10 <;>
    simp only [List.foldl, h5, h3, h10, Option.getD_some, Option.getD_none] <;>
    split_ifs <;>
    (try dsimp only) <;>
    (try omega) <;>
    simp

/-- C6 (amended): in DIRECT pair quoting every configured fee tier
(500, 3000, 10000) is tried and the quote returned carries the maximum
output over the tiers, with `none` exactly when no tier yields a positive
output; ties are broken in favour of the EARLIEST tier in the configured
order (not the middle tier).  In PER-ROUTE hop quoting no tier search is
performed: the result depends only on the quoter's answer at the pool's
own recorded fee (with 3000 substituted for an absent or zero fee). -/
theorem C6_fee_tier_search (quoter : String → String → ℕ → ℕ → Option ℕ)
    (dexId dexName tokenIn tokenOut : String) (amountIn : ℕ) :
    (getV3SingleHopQuote quoter dexId dexName tokenIn tokenOut amountIn =
        none ↔
      ((quoter tokenIn tokenOut 500 amountIn).getD 0 = 0 ∧
       (quoter tokenIn tokenOut 3000 amountIn).getD 0 = 0 ∧
       (quoter tokenIn tokenOut 10000 amountIn).getD 0 = 0)) ∧
    (∀ q, getV3SingleHopQuote quoter dexId dexName tokenIn tokenOut amountIn =
        some q →
      ((quoter tokenIn tokenOut 500 amountIn).getD 0 ≤ q.amountOut ∧
       (quoter tokenIn tokenOut 3000 amountIn).getD 0 ≤ q.amountOut ∧
       (quoter tokenIn tokenOut 10000 amountIn).getD 0 ≤ q.amountOut) ∧
      ((quoter tokenIn tokenOut 500 amountIn).getD 0 = q.amountOut ∨
       (quoter tokenIn tokenOut 3000 amountIn).getD 0 = q.amountOut ∨
       (quoter tokenIn tokenOut 10000 amountIn).getD 0 = q.amountOut) ∧
      q.feeTier = some
        (if (quoter tokenIn tokenOut 500 amountIn).getD 0 = q.amountOut
         then 500
         else if (quoter tokenIn tokenOut 3000 amountIn).getD 0 = q.amountOut
         then 3000 else 10000)) ∧
    (∀ (hop : RouteHop) (quoter' : String → String → ℕ → ℕ → Option ℕ),
      quoter' hop.tokenIn hop.tokenOut (effectiveV3Fee hop.edge.pool)
          amountIn =
        quoter hop.tokenIn hop.tokenOut (effectiveV3Fee hop.edge.pool)
          amountIn →
      routeGetV3HopQuote quoter' hop amountIn =
        routeGetV3HopQuote quoter hop amountIn) := by
  obtain ⟨⟨hb5, hb3, hb10⟩, hbd, hbf⟩ :=
    v3BestTier_spec quoter tokenIn tokenOut amountIn
  refine ⟨?_, ?_, ?_⟩
  · unfold getV3SingleHopQuote
    by_cases h : (v3BestTier quoter tokenIn tokenOut amountIn).1 = 0
    · rw [if_pos h]
      constructor
      · intro _
        omega
      · intro _
        rfl
    · rw [if_neg h]
      constructor
      · intro hc
        exact Option.noConfusion hc
      · intro hc
        exfalso
        omega
  · intro q hq
    unfold getV3SingleHopQuote at hq
    by_cases h : (v3BestTier quoter tokenIn tokenOut amountIn).1 = 0
    · rw [if_pos h] at hq
      exact Option.noConfusion hq
    · rw [if_neg h] at hq
      have hq2 := Option.some.inj hq
      subst hq2
      refine ⟨⟨hb5, hb3, hb10⟩, hbd.imp Eq.symm (Or.imp Eq.symm Eq.symm), ?_⟩
      show some ((v3BestTier quoter tokenIn tokenOut amountIn).2) =
        some (if (quoter tokenIn tokenOut 500 amountIn).getD 0 =
            (v3BestTier quoter tokenIn tokenOut amountIn).1 then 500
          else if (quoter tokenIn tokenOut 3000 amountIn).getD 0 =
            (v3BestTier quoter tokenIn tokenOut amountIn).1 then 3000
          else 10000)
      rw [hbf, if_neg h]
  · intro hop quoter' hqq
    unfold routeGetV3HopQuote
    rw [hqq]

/-- The quote produced by `tier3000Quoter` on the direct pair. -/
def qWitness : DexQuote :=
  DexQuote.mk "uniswap_v3" "Uniswap V3" 200 150000 (some 3000) (1 / 2)

theorem C6_fee_tier_search_witness :
    getV3SingleHopQuote tier3000Quoter "uniswap_v3" "Uniswap V3" "0xaa" "0xbb"
        7 = some qWitness ∧
    (((tier3000Quoter "0xaa" "0xbb" 500 7).getD 0 ≤ qWitness.amountOut ∧
      (tier3000Quoter "0xaa" "0xbb" 3000 7).getD 0 ≤ qWitness.amountOut ∧
      (tier3000Quoter "0xaa" "0xbb" 10000 7).getD 0 ≤ qWitness.amountOut) ∧
     ((tier3000Quoter "0xaa" "0xbb" 500 7).getD 0 = qWitness.amountOut ∨
      (tier3000Quoter "0xaa" "0xbb" 3000 7).getD 0 = qWitness.amountOut ∨
      (tier3000Quoter "0xaa" "0xbb" 10000 7).getD 0 = qWitness.amountOut) ∧
     qWitness.feeTier = some
       (if (tier3000Quoter "0xaa" "0xbb" 500 7).getD 0 = qWitness.amountOut
        then 500
        else if (tier3000Quoter "0xaa" "0xbb" 3000 7).getD 0 =
          qWitness.amountOut
        then 3000 else 10000)) :=
  ⟨rfl, (C6_fee_tier_search tier3000Quoter "uniswap_v3" "Uniswap V3" "0xaa"
    "0xbb" 7).2.1 qWitness rfl⟩

/-! ## RouteOptimizerService (`route-optimizer.service.ts`)

Constants: `MIN_SPLIT_PERCENTAGE = 1`, `MAX_SPLITS = 3`.  Amounts in
smallest denomination are `ℕ`/`ℤ` (`BigInt` division truncates toward
zero, hence `Int.tdiv`); display values (`formatUnits` strings later
parsed with `Number`/`parseFloat`) are the exact rationals `x / 10 ^ d`.
The `fromToken`/`toToken` labels and the ABI-encoded `dexData` carried by
`RouteStep` are display/encoding payload never branched on, and are
omitted. -/

structure RouteStep where
  dexId : String
  dexName : String
  percentage : ℚ
  fromAmount : ℚ
  toAmount : ℚ
  estimatedGas : ℕ
  feeTier : Option ℕ
deriving DecidableEq

/-- `OptimalRoute` (`totalOutput` is kept in smallest denomination; the
source stores `formatUnits(totalOutput, toDecimals)` and the comparisons
parse it back, i.e. use `totalOutput / 10 ^ toDecimals`). -/
structure OptimalRoute where
  steps : List RouteStep
  totalOutput : ℤ
  totalGas : ℕ
  avgPriceImpact : ℚ
  isSplit : Bool
deriving DecidableEq

/-- `RouteOptimizerService.normalizePercentages`. -/
def normalizePercentages (raw : List ℚ) : List ℚ :=
  raw.map (fun p => p / raw.sum * 100)

/-- Lines 106–125 of `calculateDynamicSplit`: top 3 quotes, proportional
raw percentages, `normalizePercentages`, drop legs under
`MIN_SPLIT_PERCENTAGE = 1`. -/
def legacyValidSplits (quotes : List DexQuote) : List (DexQuote × ℚ) :=
  let topQuotes := quotes.take 3
  let outputs := topQuotes.map (fun q => (q.amountOut : ℚ))
  let totalPotentialOutput := outputs.sum
  let rawPercentages := outputs.map (fun o => o / totalPotentialOutput * 100)
  let percentages := normalizePercentages rawPercentages
  (topQuotes.zip percentages).filter (fun s => 1 ≤ s.2)

/-- Lines 133–149 of `calculateDynamicSplit`: renormalise the surviving
legs to sum to 100, round each to two decimals, add the residual to the
first leg and round that leg again. -/
def legacyRenormalize {β : Type} (vs : List (β × ℚ)) : List (β × ℚ) :=
  let totalPercentage := (vs.map (fun s => s.2)).sum
  let rounded := vs.map (fun s =>
    (s.1, round2 (s.2 / totalPercentage * 100)))
  let pctSum := (rounded.map (fun s => s.2)).sum
  if pctSum ≠ 100 then
    match rounded with
    | [] => []
    | r0 :: rest => (r0.1, round2 (r0.2 + (100 - pctSum))) :: rest
  else rounded

/-- `RouteOptimizerService.calculateDynamicSplit` (the `amountIn` and
`fromDecimals` parameters are never read in its body); a single surviving
leg gets 100%. -/
def calculateDynamicSplit (quotes : List DexQuote) : List (DexQuote × ℚ) :=
  if (legacyValidSplits quotes).length = 1 then
    (legacyValidSplits quotes).map (fun v => (v.1, 100))
  else legacyRenormalize (legacyValidSplits quotes)

/-- `RouteOptimizerService.createSingleRoute`. -/
def createSingleRoute (quote : DexQuote) (amountIn : ℕ)
    (fromDecimals toDecimals : ℕ) : OptimalRoute :=
  { steps := [{ dexId := quote.dexId, dexName := quote.dexName,
                percentage := 100,
                fromAmount := (amountIn : ℚ) / 10 ^ fromDecimals,
                toAmount := (quote.amountOut : ℚ) / 10 ^ toDecimals,
                estimatedGas := quote.estimatedGas,
                feeTier := quote.feeTier }],
    totalOutput := (quote.amountOut : ℤ),
    totalGas := quote.estimatedGas,
    avgPriceImpact := quote.priceImpact,
    isSplit := false }

/-- `RouteOptimizerService.createSplitRoute`: each leg's amounts are the
full-quote amounts scaled by `BigInt(Math.round(percentage * 100)) /
10000n` (truncating `BigInt` division). -/
def createSplitRoute (splits : List (DexQuote × ℚ)) (amountIn : ℕ)
    (fromDecimals toDecimals : ℕ) : OptimalRoute :=
  { steps := splits.map (fun s =>
      { dexId := s.1.dexId, dexName := s.1.dexName, percentage := s.2,
        fromAmount := ((Int.tdiv ((amountIn : ℤ) * jsRound (s.2 * 100))
          10000 : ℤ) : ℚ) / 10 ^ fromDecimals,
        toAmount := ((Int.tdiv ((s.1.amountOut : ℤ) * jsRound (s.2 * 100))
          10000 : ℤ) : ℚ) / 10 ^ toDecimals,
        estimatedGas := s.1.estimatedGas, feeTier := s.1.feeTier }),
    totalOutput := (splits.map (fun s =>
      Int.tdiv ((s.1.amountOut : ℤ) * jsRound (s.2 * 100)) 10000)).sum,
    totalGas := (splits.map (fun s => s.1.estimatedGas)).sum,
    avgPriceImpact := (splits.map (fun s =>
      s.1.priceImpact * (s.2 / 100))).sum,
    isSplit := true }

/-- `RouteOptimizerService.findOptimalRoute` (`none` models the thrown
"No DEX quotes available"). -/
def findOptimalRoute (quotes : List DexQuote) (amountIn : ℕ)
    (fromDecimals toDecimals : ℕ) : Option OptimalRoute :=
  if quotes = [] then none
  else
    match sortDescBy (fun q => q.amountOut) quotes with
    | [] => none
    | best :: restSorted =>
        if restSorted = [] ∨ (amountIn : ℚ) / 10 ^ fromDecimals < 100 then
          some (createSingleRoute best amountIn fromDecimals toDecimals)
        else
          let dynamicSplit := calculateDynamicSplit (best :: restSorted)
          let splitRoute :=
            createSplitRoute dynamicSplit amountIn fromDecimals toDecimals
          if (splitRoute.totalOutput : ℚ) / 10 ^ toDecimals >
              ((best.amountOut : ℚ) / 10 ^ toDecimals) * (1001 / 1000) then
            some splitRoute
          else some (createSingleRoute best amountIn fromDecimals toDecimals)

/-! ## QuoteService.optimizeRouteSplit (`part_002`)

Constants: `MIN_ROUTE_PERCENTAGE = 5`, `MAX_ROUTE_SPLITS = 3`.  The
computation pipeline is factored into named stages (top-3 filter,
renormalisation with residual correction, proportional split output) so
the selection gate can be stated; each stage is a literal translation of
the corresponding source lines. -/

structure RouteSplitResult where
  routes : List (RouteQuote × ℚ)
  totalOutput : ℚ
  totalGas : ℤ
  avgPriceImpact : ℚ
  isSplit : Bool
deriving DecidableEq

/-- Lines 273–288: top 3 of the sorted quotes, proportional raw
percentages, drop legs under 5%. -/
def routeValidSplits (sorted : List RouteQuote) : List (RouteQuote × ℚ) :=
  let topQuotes := sorted.take 3
  let outputs := topQuotes.map (fun q => (q.amountOut : ℚ))
  let totalPotentialOutput := outputs.sum
  let percentages := outputs.map (fun o => o / totalPotentialOutput * 100)
  (topQuotes.zip percentages).filter (fun s => 5 ≤ s.2)

/-- Lines 301–311: renormalise to 100 rounding to 2 decimals
(`Math.round((p / total) * 10000) / 100`), then add the rounded residual
to the first leg (without re-rounding that leg). -/
def routeRenormalize {β : Type} (vs : List (β × ℚ)) : List (β × ℚ) :=
  let totalPercentage := (vs.map (fun s => s.2)).sum
  let renorm := vs.map (fun s =>
    (s.1, (jsRound (s.2 / totalPercentage * 10000) : ℚ) / 100))
  let pctSum := (renorm.map (fun s => s.2)).sum
  if pctSum ≠ 100 then
    match renorm with
    | [] => []
    | r0 :: rest =>
        (r0.1, r0.2 + (jsRound ((100 - pctSum) * 100) : ℚ) / 100) :: rest
  else renorm

def routeAdjustedSplits (sorted : List RouteQuote) : List (RouteQuote × ℚ) :=
  routeRenormalize (routeValidSplits sorted)

/-- Lines 316–327: proportional split output
(`(amountOut * BigInt(Math.round(proportion * 10000))) / 10000n`). -/
def routeSplitOutput (sorted : List RouteQuote) : ℤ :=
  ((routeAdjustedSplits sorted).map (fun s =>
    Int.tdiv ((s.1.amountOut : ℤ) * jsRound (s.2 / 100 * 10000)) 10000)).sum

def routeSplitGas (sorted : List RouteQuote) : ℤ :=
  ((routeAdjustedSplits sorted).map (fun s =>
    ⌊(s.1.estimatedGas : ℚ) * (s.2 / 100)⌋)).sum

def routeSplitImpact (sorted : List RouteQuote) : ℚ :=
  ((routeAdjustedSplits sorted).map (fun s =>
    s.1.priceImpact * (s.2 / 100))).sum

/-- The single-best-route result (`routes: [{quote, percentage: 100}]`). -/
def routeSingleResult (best : RouteQuote) (toDecimals : ℕ) :
    RouteSplitResult :=
  { routes := [(best, 100)],
    totalOutput := (best.amountOut : ℚ) / 10 ^ toDecimals,
    totalGas := (best.estimatedGas : ℤ),
    avgPriceImpact := best.priceImpact,
    isSplit := false }

/-- `QuoteService.optimizeRouteSplit`. -/
def optimizeRouteSplit (quotes : List RouteQuote) (amountIn : ℕ)
    (fromDecimals toDecimals : ℕ) : Option RouteSplitResult :=
  if quotes = [] then none
  else
    match sortDescBy (fun q => q.amountOut) quotes with
    | [] => none
    | best :: restSorted =>
        if restSorted = [] ∨ (amountIn : ℚ) / 10 ^ fromDecimals < 100 then
          some (routeSingleResult best toDecimals)
        else if (routeValidSplits (best :: restSorted)).length ≤ 1 then
          some (routeSingleResult best toDecimals)
        else if (routeSplitOutput (best :: restSorted) : ℚ) / 10 ^ toDecimals >
            ((best.amountOut : ℚ) / 10 ^ toDecimals) * (1001 / 1000) then
          some { routes := routeAdjustedSplits (best :: restSorted),
                 totalOutput :=
                   (routeSplitOutput (best :: restSorted) : ℚ) / 10 ^ toDecimals,
                 totalGas := routeSplitGas (best :: restSorted),
                 avgPriceImpact := routeSplitImpact (best :: restSorted),
                 isSplit := true }
        else some (routeSingleResult best toDecimals)

/-! ### Arithmetic toolkit for the percentage pipelines -/

/-- A rational that is an exact multiple of `1/100` (all rounded
percentages are). -/
def Centi (x : ℚ) : Prop := ∃ k : ℤ, x = (k : ℚ) / 100

theorem centi_round2 (x : ℚ) : Centi (round2 x) := ⟨jsRound (x * 100), rfl⟩

theorem centi_hundred : Centi 100 := ⟨10000, by norm_num⟩

theorem centi_add {x y : ℚ} (hx : Centi x) (hy : Centi y) : Centi (x + y) := by
  obtain ⟨k, rfl⟩ := hx
  obtain ⟨l, rfl⟩ := hy
  exact ⟨k + l, by push_cast; ring⟩

theorem centi_sub {x y : ℚ} (hx : Centi x) (hy : Centi y) : Centi (x - y) := by
  obtain ⟨k, rfl⟩ := hx
  obtain ⟨l, rfl⟩ := hy
  exact ⟨k - l, by push_cast; ring⟩

theorem round2_of_centi {x : ℚ} (hx : Centi x) : round2 x = x := by
  obtain ⟨k, rfl⟩ := hx
  exact round2_intMul k

theorem centi_sum (l : List ℚ) (h : ∀ x ∈ l, Centi x) : Centi l.sum := by
  induction l with
  | nil => exact ⟨0, by norm_num⟩
  | cons x xs ih =>
      rw [List.sum_cons]
      exact centi_add (h x (by simp)) (ih fun y hy => h y (by simp [hy]))

theorem sum_map_div_mul (l : List ℚ) (T : ℚ) :
    (l.map (fun p => p / T * 100)).sum = l.sum / T * 100 := by
  induction l with
  | nil => simp
  | cons x xs ih =>
      simp only [List.map_cons, List.sum_cons, ih]
      ring

/-- Rounding each entry moves the sum by at most `length / 200`. -/
theorem sum_map_round2_bounds (l : List ℚ) :
    l.sum - l.length * (1 / 200) ≤ (l.map round2).sum ∧
    (l.map round2).sum ≤ l.sum + l.length * (1 / 200) := by
  induction l with
  | nil => simp
  | cons x xs ih =>
      simp only [List.map_cons, List.sum_cons, List.length_cons]
      have h1 := round2_le x
      have h2 := le_of_lt (lt_round2 x)
      constructor
      · push_cast
        nlinarith [ih.1]
      · push_cast
        nlinarith [ih.2]

theorem length_mul_le_sum (l : List ℚ) (c : ℚ) (h : ∀ x ∈ l, c ≤ x) :
    (l.length : ℚ) * c ≤ l.sum := by
  induction l with
  | nil => simp
  | cons x xs ih =>
      simp only [List.sum_cons, List.length_cons]
      have h1 := h x (by simp)
      have h2 := ih fun y hy => h y (by simp [hy])
      push_cast
      linarith

theorem sublist_sum_le (l₁ l₂ : List ℚ) (h : l₁.Sublist l₂)
    (hn : ∀ x ∈ l₂, 0 ≤ x) : l₁.sum ≤ l₂.sum := by
  induction h with
  | slnil => simp
  | cons y h ih =>
      rename_i l₁' l₂'
      rw [List.sum_cons]
      have := ih fun x hx => hn x (by simp [hx])
      have hy := hn y (by simp)
      linarith
  | cons₂ y h ih =>
      rename_i l₁' l₂'
      rw [List.sum_cons, List.sum_cons]
      have := ih fun x hx => hn x (by simp [hx])
      linarith

/-- `map snd` of a snd-predicate filter of a zip is a filter of the second
list, when lengths agree. -/
theorem map_snd_filter_zip (p : ℚ → Bool) :
    ∀ (l₁ : List α) (l₂ : List ℚ), l₁.length = l₂.length →
      ((l₁.zip l₂).filter (fun s => p s.2)).map Prod.snd = l₂.filter p
  | [], [], _ => rfl
  | [], _ :: _, h => by simp at h
  | _ :: _, [], h => by simp at h
  | a :: l₁, x :: l₂, h => by
      have hlen : l₁.length = l₂.length := by simpa using h
      simp only [List.zip_cons_cons, List.filter_cons]
      cases hp : p x
      · simpa [hp] using map_snd_filter_zip p l₁ l₂ hlen
      · simpa [hp] using map_snd_filter_zip p l₁ l₂ hlen

/-- Pairwise on the second components of a zip, inherited from the second
list. -/
theorem pairwise_zip_snd {R : ℚ → ℚ → Prop} :
    ∀ (l₁ : List α) (l₂ : List ℚ), l₂.Pairwise R →
      (l₁.zip l₂).Pairwise (fun a b => R a.2 b.2)
  | [], _, _ => by simp
  | _ :: _, [], _ => by simp
  | a :: l₁, x :: l₂, h => by
      rw [List.zip_cons_cons, List.pairwise_cons]
      refine ⟨?_, pairwise_zip_snd l₁ l₂ (List.Pairwise.of_cons h)⟩
      intro y hy
      have hy2 := (List.mem_zip hy).2
      exact (List.pairwise_cons.mp h).1 y.2 hy2

theorem sum_le_length_mul (l : List ℚ) (c : ℚ) (h : ∀ x ∈ l, x ≤ c) :
    l.sum ≤ (l.length : ℚ) * c := by
  induction l with
  | nil => simp
  | cons x xs ih =>
      simp only [List.sum_cons, List.length_cons]
      have h1 := h x (by simp)
      have h2 := ih fun y hy => h y (by simp [hy])
      push_cast
      linarith

theorem chain'_desc_pairwise (key : α → ℕ) :
    ∀ l : List α, l.Chain' (fun a b => key b ≤ key a) →
      l.Pairwise (fun a b => key b ≤ key a)
  | [], _ => by simp
  | x :: xs, h => by
      rw [List.pairwise_cons]
      exact ⟨chain'_desc_le_head key xs x h,
        chain'_desc_pairwise key xs h.tail⟩

/-- When the raw percentages already sum to 100, `normalizePercentages`
is the identity. -/
theorem normalizePercentages_of_sum_100 (l : List ℚ) (h : l.sum = 100) :
    normalizePercentages l = l := by
  unfold normalizePercentages
  rw [h]
  have : ∀ p : ℚ, p / 100 * 100 = p := fun p => by field_simp
  calc l.map (fun p => p / 100 * 100) = l.map id := List.map_congr_left
        (fun p _ => this p)
    _ = l := List.map_id l

/-- Core facts about the kept percentages after renormalisation and
two-decimal rounding: `qs = ps.map (round2 (· / ps.sum * 100))` for a
kept list `ps` (2 or 3 entries, each at least the integer threshold `m`,
summing to at most 100, descending). -/
theorem kept_pcts_facts (m : ℤ) (hm : 1 ≤ m) (ps : List ℚ)
    (hplen : ps.length ≤ 3) (h2 : 2 ≤ ps.length)
    (hmin : ∀ p ∈ ps, (m : ℚ) ≤ p)
    (hTle : ps.sum ≤ 100)
    (hdesc : ps.Pairwise (fun a b => b ≤ a)) :
    (∀ q ∈ ps.map (fun p => round2 (p / ps.sum * 100)), (m : ℚ) ≤ q) ∧
    (∀ q ∈ ps.map (fun p => round2 (p / ps.sum * 100)), Centi q) ∧
    (100 - 3 / 200 ≤ (ps.map (fun p => round2 (p / ps.sum * 100))).sum ∧
      (ps.map (fun p => round2 (p / ps.sum * 100))).sum ≤ 100 + 3 / 200) ∧
    (∀ q0 qtail, ps.map (fun p => round2 (p / ps.sum * 100)) = q0 :: qtail →
      100 / 3 - 1 / 200 ≤ q0) := by
  have hm' : (1 : ℚ) ≤ (m : ℚ) := by exact_mod_cast hm
  have hTpos : 0 < ps.sum := by
    have := length_mul_le_sum ps (m : ℚ) hmin
    have hlen : (2 : ℚ) ≤ (ps.length : ℚ) := by exact_mod_cast h2
    nlinarith
  have hstep : ∀ p ∈ ps, p ≤ p / ps.sum * 100 := by
    intro p hp
    have hp0 : 0 ≤ p := le_trans (by linarith) (hmin p hp)
    rw [div_mul_eq_mul_div, le_div_iff hTpos]
    nlinarith
  refine ⟨?_, ?_, ?_, ?_⟩
  · intro q hq
    obtain ⟨p, hp, rfl⟩ := List.mem_map.mp hq
    exact le_round2_of_intCast_le (le_trans (hmin p hp) (hstep p hp))
  · intro q hq
    obtain ⟨p, hp, rfl⟩ := List.mem_map.mp hq
    exact centi_round2 _
  · have hmm : ps.map (fun p => round2 (p / ps.sum * 100)) =
        (ps.map (fun p => p / ps.sum * 100)).map round2 := by
      rw [List.map_map]
      rfl
    have hsum : (ps.map (fun p => p / ps.sum * 100)).sum = 100 := by
      rw [sum_map_div_mul, div_self (ne_of_gt hTpos)]
      norm_num
    have hb := sum_map_round2_bounds (ps.map (fun p => p / ps.sum * 100))
    rw [hsum, List.length_map] at hb
    have hlen3 : (ps.length : ℚ) ≤ 3 := by exact_mod_cast hplen
    have hlen0 : (0 : ℚ) ≤ (ps.length : ℚ) := by positivity
    rw [hmm]
    constructor
    · nlinarith [hb.1]
    · nlinarith [hb.2]
  · intro q0 qtail hq
    cases ps with
    | nil => cases hq
    | cons p0 ptail =>
        simp only [List.map_cons, List.cons.injEq] at hq
        have hq0 : q0 = round2 (p0 / (p0 :: ptail).sum * 100) := hq.1.symm
        have hmax : ∀ p ∈ ptail, p ≤ p0 :=
          fun p hp => List.rel_of_pairwise_cons hdesc hp
        have hp0min : (m : ℚ) ≤ p0 := hmin p0 (by simp)
        have hp0pos : 0 < p0 := by linarith
        have htail : ptail.sum ≤ (ptail.length : ℚ) * p0 :=
          sum_le_length_mul ptail p0 hmax
        have hlen : ptail.length ≤ 2 := by
          simp only [List.length_cons] at hplen
          omega
        have hlen' : (ptail.length : ℚ) ≤ 2 := by exact_mod_cast hlen
        have hT3 : (p0 :: ptail).sum ≤ 3 * p0 := by
          rw [List.sum_cons]
          nlinarith
        have hTpos' : 0 < (p0 :: ptail).sum := hTpos
        have hfrac : 100 / 3 ≤ p0 / (p0 :: ptail).sum * 100 := by
          rw [div_mul_eq_mul_div, le_div_iff hTpos']
          nlinarith
        have := lt_round2 (p0 / (p0 :: ptail).sum * 100)
        rw [hq0]
        linarith

/-! ### Canonical form of the renormalisation step

Both renormalisation implementations produce, in exact arithmetic, the
same list: round each renormalised percentage to two decimals, then add
the EXACT residual `100 - sum` to the first leg (the leg re-rounding of
the legacy code and the residual rounding of the route code are identities
on exact multiples of `1/100`). -/

def roundedSplits {β : Type} (vs : List (β × ℚ)) : List (β × ℚ) :=
  vs.map (fun s => (s.1, round2 (s.2 / (vs.map (fun s => s.2)).sum * 100)))

def residualFixed {β : Type} (rs : List (β × ℚ)) : List (β × ℚ) :=
  match rs with
  | [] => []
  | r0 :: rest => (r0.1, r0.2 + (100 - (rs.map (fun s => s.2)).sum)) :: rest

theorem roundedSplits_snd_centi {β : Type} (vs : List (β × ℚ)) :
    ∀ s ∈ roundedSplits vs, Centi s.2 := by
  intro s hs
  obtain ⟨t, _, rfl⟩ := List.mem_map.mp hs
  exact centi_round2 _

theorem roundedSplits_sum_centi {β : Type} (vs : List (β × ℚ)) :
    Centi ((roundedSplits vs).map (fun s => s.2)).sum := by
  refine centi_sum _ ?_
  intro x hx
  obtain ⟨t, ht, rfl⟩ := List.mem_map.mp hx
  exact roundedSplits_snd_centi vs t ht

theorem legacyRenormalize_eq_canonical {β : Type} (vs : List (β × ℚ)) :
    legacyRenormalize vs = residualFixed (roundedSplits vs) := by
  simp only [legacyRenormalize]
  have hr : vs.map (fun s =>
      (s.1, round2 (s.2 / (vs.map (fun s => s.2)).sum * 100))) =
      roundedSplits vs := rfl
  rw [hr]
  have hcentisum := roundedSplits_sum_centi vs
  by_cases hs : ((roundedSplits vs).map (fun s => s.2)).sum = 100
  · rw [if_neg (by simpa using hs)]
    unfold residualFixed
    cases hrs : roundedSplits vs with
    | nil => rfl
    | cons r0 rest =>
        rw [hrs] at hs
        rw [hs]
        simp
  · rw [if_pos hs]
    unfold residualFixed
    cases hrs : roundedSplits vs with
    | nil => rfl
    | cons r0 rest =>
        have hc0 : Centi r0.2 := roundedSplits_snd_centi vs r0 (by
          rw [hrs]; simp)
        have hcs : Centi ((r0 :: rest).map (fun s => s.2)).sum := by
          rw [← hrs]; exact hcentisum
        have harg : Centi (r0.2 + (100 - ((r0 :: rest).map (fun s => s.2)).sum)) := by
          refine centi_add hc0 (centi_sub centi_hundred hcs)
        simp only [round2_of_centi harg]

theorem routeRenormalize_eq_canonical {β : Type} (vs : List (β × ℚ)) :
    routeRenormalize vs = residualFixed (roundedSplits vs) := by
  simp only [routeRenormalize]
  have hmap : vs.map (fun s =>
      (s.1, (jsRound (s.2 / (vs.map (fun s => s.2)).sum * 10000) : ℚ) / 100)) =
      roundedSplits vs := by
    unfold roundedSplits
    refine List.map_congr_left ?_
    intro s _
    have harg : s.2 / (vs.map (fun s => s.2)).sum * 10000 =
        (s.2 / (vs.map (fun s => s.2)).sum * 100) * 100 := by ring
    rw [harg]
    rfl
  rw [hmap]
  have hcentisum := roundedSplits_sum_centi vs
  by_cases hs : ((roundedSplits vs).map (fun s => s.2)).sum = 100
  · rw [if_neg (by simpa using hs)]
    unfold residualFixed
    cases hrs : roundedSplits vs with
    | nil => rfl
    | cons r0 rest =>
        rw [hrs] at hs
        rw [hs]
        simp
  · rw [if_pos hs]
    unfold residualFixed
    cases hrs : roundedSplits vs with
    | nil => rfl
    | cons r0 rest =>
        have hcs : Centi ((r0 :: rest).map (fun s => s.2)).sum := by
          rw [← hrs]; exact hcentisum
        have hres : Centi (100 - ((r0 :: rest).map (fun s => s.2)).sum) :=
          centi_sub centi_hundred hcs
        have hjr : (jsRound ((100 - ((r0 :: rest).map (fun s => s.2)).sum) * 100) : ℚ) / 100 =
            round2 (100 - ((r0 :: rest).map (fun s => s.2)).sum) := rfl
        simp only [hjr, round2_of_centi hres]

theorem residualFixed_sum {β : Type} (rs : List (β × ℚ)) (hne : rs ≠ []) :
    ((residualFixed rs).map (fun s => s.2)).sum = 100 := by
  cases rs with
  | nil => exact absurd rfl hne
  | cons r0 rest =>
      unfold residualFixed
      simp only [List.map_cons, List.sum_cons]
      ring

/-- Minimum-percentage preservation for the canonical renormalisation,
for an integer threshold `m ∈ [1, 5]`. -/
theorem residualFixed_min {β : Type} (m : ℤ) (hm : 1 ≤ m) (hm5 : (m : ℚ) ≤ 5)
    (vs : List (β × ℚ)) (h2 : 2 ≤ vs.length) (hlen : vs.length ≤ 3)
    (hmin : ∀ s ∈ vs, (m : ℚ) ≤ s.2)
    (hTle : (vs.map (fun s => s.2)).sum ≤ 100)
    (hdesc : (vs.map (fun s => s.2)).Pairwise (fun a b => b ≤ a)) :
    ∀ s ∈ residualFixed (roundedSplits vs), (m : ℚ) ≤ s.2 := by
  have hps : (roundedSplits vs).map (fun s => s.2) =
      (vs.map (fun s => s.2)).map
        (fun p => round2 (p / (vs.map (fun s => s.2)).sum * 100)) := by
    unfold roundedSplits
    simp [List.map_map]
  have hk := kept_pcts_facts m hm (vs.map (fun s => s.2))
    (by simpa using hlen) (by simpa using h2)
    (by intro p hp
        obtain ⟨t, ht, rfl⟩ := List.mem_map.mp hp
        exact hmin t ht)
    hTle hdesc
  obtain ⟨hk1, _, ⟨hk3a, hk3b⟩, hk4⟩ := hk
  intro s hs
  cases hrs : roundedSplits vs with
  | nil =>
      rw [hrs] at hs
      cases hs
  | cons r0 rest =>
      rw [hrs] at hs
      unfold residualFixed at hs
      simp only [List.mem_cons] at hs
      have hsum : ((r0 :: rest).map (fun s => s.2)).sum =
          ((roundedSplits vs).map (fun s => s.2)).sum := by rw [hrs]
      rcases hs with rfl | hs2
      · show (m : ℚ) ≤ r0.2 + (100 - ((r0 :: rest).map (fun s => s.2)).sum)
        have hq0 : 100 / 3 - 1 / 200 ≤ r0.2 := by
          refine hk4 r0.2 (rest.map (fun s => s.2)) ?_
          rw [← hps, hrs]
          simp
        have h1 : ((r0 :: rest).map (fun s => s.2)).sum ≤ 100 + 3 / 200 := by
          rw [hsum, hps]
          exact hk3b
        linarith
      · have : s.2 ∈ (roundedSplits vs).map (fun s => s.2) := by
          rw [hrs]
          simp only [List.map_cons, List.mem_cons]
          right
          exact List.mem_map_of_mem _ hs2
        rw [hps] at this
        exact hk1 s.2 this

theorem normalize_raw (outputs : List ℚ) (h : ∀ o ∈ outputs, 0 ≤ o) :
    normalizePercentages (outputs.map (fun o => o / outputs.sum * 100)) =
      outputs.map (fun o => o / outputs.sum * 100) := by
  by_cases hT : outputs.sum = 0
  · have hz : outputs.map (fun o => o / outputs.sum * 100) =
        outputs.map (fun _ => (0 : ℚ)) :=
      List.map_congr_left (fun o _ => by rw [hT]; simp)
    rw [hz]
    unfold normalizePercentages
    rw [List.map_map]
    refine List.map_congr_left ?_
    intro o _
    simp
  · apply normalizePercentages_of_sum_100
    rw [sum_map_div_mul, div_self hT]
    norm_num

/-- Facts about a proportional-percentage filter stage shared by both
optimizers: `vs = (top.zip pcts).filter (c ≤ ·.2)` where `pcts` are the
proportional percentages of `top`'s outputs. -/
theorem validSplits_facts {β : Type} (outKey : β → ℕ) (c : ℚ) (hc : 1 ≤ c)
    (top : List β) (hlen : top.length ≤ 3)
    (hdesc : top.Pairwise (fun a b => outKey b ≤ outKey a)) :
    (∀ s ∈ (top.zip ((top.map (fun q => (outKey q : ℚ))).map
        (fun o => o / (top.map (fun q => (outKey q : ℚ))).sum * 100))).filter
        (fun s => c ≤ s.2), c ≤ s.2 ∧ s.1 ∈ top) ∧
    ((((top.zip ((top.map (fun q => (outKey q : ℚ))).map
        (fun o => o / (top.map (fun q => (outKey q : ℚ))).sum * 100))).filter
        (fun s => c ≤ s.2)).map (fun s => s.2)).sum ≤ 100) ∧
    (((top.zip ((top.map (fun q => (outKey q : ℚ))).map
        (fun o => o / (top.map (fun q => (outKey q : ℚ))).sum * 100))).filter
        (fun s => c ≤ s.2)).length ≤ 3) ∧
    ((((top.zip ((top.map (fun q => (outKey q : ℚ))).map
        (fun o => o / (top.map (fun q => (outKey q : ℚ))).sum * 100))).filter
        (fun s => c ≤ s.2)).map (fun s => s.2)).Pairwise
        (fun a b => b ≤ a)) := by
  set outs := top.map (fun q => (outKey q : ℚ)) with houts
  set pcts := outs.map (fun o => o / outs.sum * 100) with hpcts
  have houtsnn : ∀ o ∈ outs, 0 ≤ o := by
    intro o ho
    obtain ⟨q, _, rfl⟩ := List.mem_map.mp ho
    positivity
  have hpctsnn : ∀ p ∈ pcts, 0 ≤ p := by
    intro p hp
    obtain ⟨o, ho, rfl⟩ := List.mem_map.mp hp
    have h0 := houtsnn o ho
    have hT : 0 ≤ outs.sum := List.sum_nonneg houtsnn
    positivity
  have hlength : top.length = pcts.length := by
    rw [hpcts, houts]
    simp
  have hsnd : ((top.zip pcts).filter (fun s => c ≤ s.2)).map Prod.snd =
      pcts.filter (fun p => c ≤ p) := by
    have := map_snd_filter_zip (fun p => decide (c ≤ p)) top pcts hlength
    simpa using this
  refine ⟨?_, ?_, ?_, ?_⟩
  · intro s hs
    have h1 := List.mem_filter.mp hs
    refine ⟨by simpa using h1.2, (List.mem_zip h1.1).1⟩
  · have hsub : (pcts.filter (fun p => c ≤ p)).Sublist pcts :=
      List.filter_sublist pcts
    have hsum : (pcts.filter (fun p => c ≤ p)).sum ≤ pcts.sum :=
      sublist_sum_le _ _ hsub hpctsnn
    have hsnd' : (((top.zip pcts).filter (fun s => c ≤ s.2)).map
        (fun s => s.2)).sum = (pcts.filter (fun p => c ≤ p)).sum := by
      rw [show (fun (s : β × ℚ) => s.2) = Prod.snd from rfl, hsnd]
    rw [hsnd']
    by_cases hT : outs.sum = 0
    · have : pcts = outs.map (fun _ => (0 : ℚ)) := by
        rw [hpcts]
        exact List.map_congr_left (fun o _ => by rw [hT]; simp)
      have hz : pcts.sum = 0 := by
        rw [this]
        simp [List.sum_eq_zero]
      linarith
    · have : pcts.sum = 100 := by
        rw [hpcts, sum_map_div_mul, div_self hT]
        norm_num
      linarith
  · calc ((top.zip pcts).filter (fun s => c ≤ s.2)).length
        ≤ (top.zip pcts).length := List.length_filter_le _ _
      _ ≤ top.length := by
          rw [List.length_zip]
          exact min_le_left _ _
      _ ≤ 3 := hlen
  · have houtsd : outs.Pairwise (fun a b => b ≤ a) := by
      rw [houts, List.pairwise_map]
      exact hdesc.imp (fun h => by exact_mod_cast h)
    have hpctsd : pcts.Pairwise (fun a b => b ≤ a) := by
      rw [hpcts, List.pairwise_map]
      refine houtsd.imp ?_
      intro a b hab
      by_cases hT : outs.sum = 0
      · rw [hT]
        simp
      · have hTpos : 0 < outs.sum :=
          lt_of_le_of_ne (List.sum_nonneg houtsnn) (Ne.symm hT)
        exact mul_le_mul_of_nonneg_right
          ((div_le_div_right hTpos).mpr hab) (by norm_num)
    have hzipd := pairwise_zip_snd (R := fun a b => b ≤ a) top pcts hpctsd
    have hfd := hzipd.filter (fun s => decide (c ≤ s.2))
    rw [show (fun (s : β × ℚ) => s.2) = Prod.snd from rfl]
    rw [List.pairwise_map]
    exact hfd

theorem legacyValidSplits_eq (quotes : List DexQuote) :
    legacyValidSplits quotes =
      ((quotes.take 3).zip
        (((quotes.take 3).map (fun q => (q.amountOut : ℚ))).map
          (fun o => o /
            ((quotes.take 3).map (fun q => (q.amountOut : ℚ))).sum * 100))).filter
        (fun s => 1 ≤ s.2) := by
  simp only [legacyValidSplits]
  rw [normalize_raw]
  intro o ho
  obtain ⟨q, _, rfl⟩ := List.mem_map.mp ho
  positivity

theorem routeValidSplits_eq (sorted : List RouteQuote) :
    routeValidSplits sorted =
      ((sorted.take 3).zip
        (((sorted.take 3).map (fun q => (q.amountOut : ℚ))).map
          (fun o => o /
            ((sorted.take 3).map (fun q => (q.amountOut : ℚ))).sum * 100))).filter
        (fun s => 5 ≤ s.2) := rfl

/-- Invariant of the legacy dynamic split: a nonempty result sums to
exactly 100 and every leg keeps at least `MIN_SPLIT_PERCENTAGE = 1`. -/
theorem calculateDynamicSplit_invariant (quotes : List DexQuote)
    (hdesc : quotes.Pairwise (fun a b => b.amountOut ≤ a.amountOut))
    (hne : calculateDynamicSplit quotes ≠ []) :
    ((calculateDynamicSplit quotes).map (fun s => s.2)).sum = 100 ∧
    ∀ s ∈ calculateDynamicSplit quotes, 1 ≤ s.2 := by
  have htop : (quotes.take 3).Pairwise
      (fun a b => b.amountOut ≤ a.amountOut) :=
    hdesc.sublist (List.take_sublist 3 quotes)
  have hvf := validSplits_facts (fun q => q.amountOut) 1 (le_refl 1)
    (quotes.take 3) (le_trans (List.length_take_le 3 quotes) (by simp))
    htop
  rw [← legacyValidSplits_eq] at hvf
  obtain ⟨hA, hB, hC, hD⟩ := hvf
  unfold calculateDynamicSplit at hne ⊢
  by_cases h1 : (legacyValidSplits quotes).length = 1
  · rw [if_pos h1] at hne ⊢
    cases hls : legacyValidSplits quotes with
    | nil => rw [hls] at h1; cases h1
    | cons v rest =>
        rw [hls] at h1
        have hrest : rest = [] := by
          cases rest with
          | nil => rfl
          | cons _ _ => simp at h1
        subst hrest
        constructor
        · simp
        · intro s hs
          simp only [List.map_cons, List.map_nil, List.mem_singleton] at hs
          subst hs
          norm_num
  · rw [if_neg h1] at hne ⊢
    rw [legacyRenormalize_eq_canonical] at hne ⊢
    have h2 : 2 ≤ (legacyValidSplits quotes).length := by
      rcases Nat.lt_or_ge (legacyValidSplits quotes).length 2 with hlt | hge
      · interval_cases hl : (legacyValidSplits quotes).length
        · have : legacyValidSplits quotes = [] := List.length_eq_zero.mp hl
          rw [this] at hne
          simp [roundedSplits, residualFixed] at hne
        · exact absurd rfl h1
      · exact hge
    have hmin1 : ∀ s ∈ legacyValidSplits quotes, ((1 : ℤ) : ℚ) ≤ s.2 := by
      intro s hs
      have := (hA s hs).1
      push_cast
      linarith
    have hnonnil : roundedSplits (legacyValidSplits quotes) ≠ [] := by
      intro hcon
      have := congrArg List.length hcon
      simp only [roundedSplits, List.length_map, List.length_nil] at this
      omega
    refine ⟨residualFixed_sum _ hnonnil, ?_⟩
    intro s hs
    have := residualFixed_min 1 (le_refl 1) (by norm_num)
      (legacyValidSplits quotes) h2 hC hmin1 hB hD s hs
    push_cast at this
    linarith

/-- Invariant of the route split legs: with at least two surviving legs,
the adjusted percentages sum to exactly 100 and every leg keeps at least
`MIN_ROUTE_PERCENTAGE = 5`. -/
theorem routeAdjustedSplits_invariant (sorted : List RouteQuote)
    (hdesc : sorted.Pairwise (fun a b => b.amountOut ≤ a.amountOut))
    (h2 : 2 ≤ (routeValidSplits sorted).length) :
    ((routeAdjustedSplits sorted).map (fun s => s.2)).sum = 100 ∧
    ∀ s ∈ routeAdjustedSplits sorted, 5 ≤ s.2 := by
  have htop : (sorted.take 3).Pairwise
      (fun a b => b.amountOut ≤ a.amountOut) :=
    hdesc.sublist (List.take_sublist 3 sorted)
  have hvf := validSplits_facts (fun q => q.amountOut) 5 (by norm_num)
    (sorted.take 3) (le_trans (List.length_take_le 3 sorted) (by simp))
    htop
  rw [← routeValidSplits_eq] at hvf
  obtain ⟨hA, hB, hC, hD⟩ := hvf
  unfold routeAdjustedSplits
  rw [routeRenormalize_eq_canonical]
  have hmin5 : ∀ s ∈ routeValidSplits sorted, ((5 : ℤ) : ℚ) ≤ s.2 := by
    intro s hs
    have := (hA s hs).1
    push_cast
    linarith
  have hnonnil : roundedSplits (routeValidSplits sorted) ≠ [] := by
    intro hcon
    have := congrArg List.length hcon
    simp only [roundedSplits, List.length_map, List.length_nil] at this
    omega
  refine ⟨residualFixed_sum _ hnonnil, ?_⟩
  intro s hs
  have := residualFixed_min 5 (by norm_num) (by norm_num)
    (routeValidSplits sorted) h2 hC hmin5 hB hD s hs
  push_cast at this
  linarith

/-- C4: the split-plan percentage invariant, for both optimizers.  The
legs of any execution plan constructed with `isSplit = true` are exactly
`calculateDynamicSplit`'s result (legacy) or `routeAdjustedSplits`'s
result (route path) — conjunct 3 records the step/percentage identity for
the legacy constructor, and `optimizeRouteSplit` stores
`routeAdjustedSplits` verbatim in `routes`.  After the rounding-residual
correction on the first leg, the percentages sum to exactly 100 (well
within the claimed ±0.01) and every leg keeps the implementation's
configured minimum (1% legacy, 5% route). -/
theorem C4_split_plan_percentages :
    (∀ quotes : List DexQuote,
      calculateDynamicSplit (sortDescBy (fun q => q.amountOut) quotes) ≠ [] →
      ((calculateDynamicSplit (sortDescBy (fun q => q.amountOut) quotes)).map
        (fun s => s.2)).sum = 100 ∧
      ∀ s ∈ calculateDynamicSplit (sortDescBy (fun q => q.amountOut) quotes),
        1 ≤ s.2) ∧
    (∀ quotes : List RouteQuote,
      2 ≤ (routeValidSplits (sortDescBy (fun q => q.amountOut) quotes)).length →
      ((routeAdjustedSplits (sortDescBy (fun q => q.amountOut) quotes)).map
        (fun s => s.2)).sum = 100 ∧
      ∀ s ∈ routeAdjustedSplits (sortDescBy (fun q => q.amountOut) quotes),
        5 ≤ s.2) ∧
    (∀ (splits : List (DexQuote × ℚ)) (amountIn fromDecimals toDecimals : ℕ),
      (createSplitRoute splits amountIn fromDecimals toDecimals).steps.map
        (fun st => st.percentage) = splits.map (fun s => s.2)) := by
  refine ⟨?_, ?_, ?_⟩
  · intro quotes hne
    exact calculateDynamicSplit_invariant _
      (chain'_desc_pairwise (fun q : DexQuote => q.amountOut) _
        (sortDescBy_chain' (fun q => q.amountOut) quotes)) hne
  · intro quotes h2
    exact routeAdjustedSplits_invariant _
      (chain'_desc_pairwise (fun q : RouteQuote => q.amountOut) _
        (sortDescBy_chain' (fun q => q.amountOut) quotes)) h2
  · intro splits amountIn fromDecimals toDecimals
    unfold createSplitRoute
    rw [List.map_map]
    rfl

/-! ### Concrete quotes for the split-optimizer witnesses -/

def dqA : DexQuote := ⟨"uniswap_v3", "Uniswap V3", 100, 150000, some 3000, 1 / 2⟩
def dqB : DexQuote := ⟨"sushiswap", "SushiSwap", 100, 120000, none, 3 / 10⟩
def dqC : DexQuote := ⟨"uniswap_v2", "Uniswap V2", 4, 120000, none, 3 / 10⟩

def rqA : RouteQuote := ⟨routeW, 1000, 100, 1 / 2, 150000, []⟩
def rqB : RouteQuote := ⟨routeV2W, 1000, 100, 3 / 10, 120000, []⟩
def rqC : RouteQuote := ⟨routeV2W, 1000, 4, 3 / 10, 120000, []⟩

theorem calculateDynamicSplit_AB :
    calculateDynamicSplit (sortDescBy (fun q => q.amountOut) [dqA, dqB]) =
      [(dqA, 50), (dqB, 50)] := by
  norm_num [calculateDynamicSplit, legacyValidSplits, legacyRenormalize,
    sortDescBy, insDescBy, dqA, dqB, normalizePercentages, round2, jsRound,
    List.filter, List.foldl]

theorem routeValidSplits_AB :
    routeValidSplits (sortDescBy (fun q => q.amountOut) [rqA, rqB]) =
      [(rqA, 50), (rqB, 50)] := by
  norm_num [routeValidSplits, sortDescBy, insDescBy, rqA, rqB,
    List.filter, List.foldl]

theorem C4_split_plan_percentages_witness :
    (calculateDynamicSplit (sortDescBy (fun q => q.amountOut) [dqA, dqB]) ≠ [] ∧
      ((calculateDynamicSplit (sortDescBy (fun q => q.amountOut) [dqA, dqB])).map
        (fun s => s.2)).sum = 100 ∧
      ∀ s ∈ calculateDynamicSplit (sortDescBy (fun q => q.amountOut) [dqA, dqB]),
        1 ≤ s.2) ∧
    (2 ≤ (routeValidSplits (sortDescBy (fun q => q.amountOut) [rqA, rqB])).length ∧
      ((routeAdjustedSplits (sortDescBy (fun q => q.amountOut) [rqA, rqB])).map
        (fun s => s.2)).sum = 100 ∧
      ∀ s ∈ routeAdjustedSplits (sortDescBy (fun q => q.amountOut) [rqA, rqB]),
        5 ≤ s.2) := by
  have hne : calculateDynamicSplit
      (sortDescBy (fun q => q.amountOut) [dqA, dqB]) ≠ [] := by
    rw [calculateDynamicSplit_AB]
    simp
  have h2 : 2 ≤ (routeValidSplits
      (sortDescBy (fun q => q.amountOut) [rqA, rqB])).length := by
    rw [routeValidSplits_AB]
    simp
  have hl := C4_split_plan_percentages.1 [dqA, dqB] hne
  have hr := C4_split_plan_percentages.2.1 [rqA, rqB] h2
  exact ⟨⟨hne, hl.1, hl.2⟩, ⟨h2, hr.1, hr.2⟩⟩

/-! ### The 1.001 improvement gate (C1) -/

/-- Dividing both sides of the gate by `10 ^ t` (the source compares the
`formatUnits`-formatted values) does not change it. -/
theorem gate_div_iff (x y : ℚ) (t : ℕ) :
    x / 10 ^ t > y / 10 ^ t * (1001 / 1000) ↔ x > y * (1001 / 1000) := by
  have ht : (0 : ℚ) < 10 ^ t := by positivity
  rw [gt_iff_lt, gt_iff_lt, div_mul_eq_mul_div, div_lt_div_iff ht ht,
    mul_lt_mul_right ht]

theorem findOptimalRoute_cons (quotes : List DexQuote)
    (amountIn fromDecimals toDecimals : ℕ) (best : DexQuote)
    (rest : List DexQuote)
    (hsort : sortDescBy (fun q => q.amountOut) quotes = best :: rest) :
    findOptimalRoute quotes amountIn fromDecimals toDecimals =
      if rest = [] ∨ (amountIn : ℚ) / 10 ^ fromDecimals < 100 then
        some (createSingleRoute best amountIn fromDecimals toDecimals)
      else if ((createSplitRoute (calculateDynamicSplit (best :: rest))
            amountIn fromDecimals toDecimals).totalOutput : ℚ) / 10 ^ toDecimals >
          ((best.amountOut : ℚ) / 10 ^ toDecimals) * (1001 / 1000) then
        some (createSplitRoute (calculateDynamicSplit (best :: rest))
          amountIn fromDecimals toDecimals)
      else some (createSingleRoute best amountIn fromDecimals toDecimals) := by
  have hq : quotes ≠ [] := by
    intro h0
    rw [h0] at hsort
    simp [sortDescBy] at hsort
  unfold findOptimalRoute
  rw [if_neg hq, hsort]

theorem optimizeRouteSplit_cons (quotes : List RouteQuote)
    (amountIn fromDecimals toDecimals : ℕ) (best : RouteQuote)
    (rest : List RouteQuote)
    (hsort : sortDescBy (fun q => q.amountOut) quotes = best :: rest) :
    optimizeRouteSplit quotes amountIn fromDecimals toDecimals =
      if rest = [] ∨ (amountIn : ℚ) / 10 ^ fromDecimals < 100 then
        some (routeSingleResult best toDecimals)
      else if (routeValidSplits (best :: rest)).length ≤ 1 then
        some (routeSingleResult best toDecimals)
      else if (routeSplitOutput (best :: rest) : ℚ) / 10 ^ toDecimals >
          ((best.amountOut : ℚ) / 10 ^ toDecimals) * (1001 / 1000) then
        some { routes := routeAdjustedSplits (best :: rest),
               totalOutput :=
                 (routeSplitOutput (best :: rest) : ℚ) / 10 ^ toDecimals,
               totalGas := routeSplitGas (best :: rest),
               avgPriceImpact := routeSplitImpact (best :: rest),
               isSplit := true }
      else some (routeSingleResult best toDecimals) := by
  have hq : quotes ≠ [] := by
    intro h0
    rw [h0] at hsort
    simp [sortDescBy] at hsort
  unfold optimizeRouteSplit
  rw [if_neg hq, hsort]

/-- A single quote always splits to its own full output (or to nothing if
its output is zero): the constructed one-leg split plan can never beat the
single plan. -/
theorem legacySplitTotal_single (q : DexQuote)
    (amountIn fromDecimals toDecimals : ℕ) :
    (createSplitRoute (calculateDynamicSplit [q])
      amountIn fromDecimals toDecimals).totalOutput ≤ (q.amountOut : ℤ) := by
  by_cases ha : q.amountOut = 0
  · have h1 : legacyValidSplits [q] = [] := by
      norm_num [legacyValidSplits, normalizePercentages, ha]
    have h2 : calculateDynamicSplit [q] = [] := by
      simp [calculateDynamicSplit, h1, legacyRenormalize]
    simp [createSplitRoute, h2]
  · have hc : ((q.amountOut : ℚ)) ≠ 0 := Nat.cast_ne_zero.mpr ha
    have h1 : legacyValidSplits [q] = [(q, 100)] := by
      norm_num [legacyValidSplits, normalizePercentages, div_self hc]
    have h2 : calculateDynamicSplit [q] = [(q, 100)] := by
      simp [calculateDynamicSplit, h1]
    have hjr : jsRound ((100 : ℚ) * 100) = 10000 := by
      norm_num [jsRound]
    simp only [createSplitRoute, h2, List.map_cons, List.map_nil,
      List.sum_cons, List.sum_nil, hjr, add_zero]
    rw [Int.mul_tdiv_cancel _ (by norm_num)]

theorem routeRenormalize_single {β : Type} (q : β) (p : ℚ) (hp : p ≠ 0) :
    routeRenormalize [(q, p)] = [(q, 100)] := by
  norm_num [routeRenormalize, div_self hp, jsRound]

/-- When at most one leg survives the 5% filter, the proportional split
output cannot exceed the best route's own output. -/
theorem routeSplitOutput_le_head (best : RouteQuote) (rest : List RouteQuote)
    (hdesc : (best :: rest).Chain' (fun a b => b.amountOut ≤ a.amountOut))
    (hlen : (routeValidSplits (best :: rest)).length ≤ 1) :
    routeSplitOutput (best :: rest) ≤ (best.amountOut : ℤ) := by
  rcases hv : routeValidSplits (best :: rest) with _ | ⟨⟨q, p⟩, _ | ⟨r2, l2⟩⟩
  · unfold routeSplitOutput routeAdjustedSplits
    rw [hv]
    simp [routeRenormalize]
  · have hmem : (q, p) ∈ routeValidSplits (best :: rest) := by
      rw [hv]
      simp
    rw [routeValidSplits_eq] at hmem
    have hfm := List.mem_filter.mp hmem
    have h5 : (5 : ℚ) ≤ p := by simpa using hfm.2
    have hq : q ∈ (best :: rest).take 3 := (List.mem_zip hfm.1).1
    have hqm : q ∈ best :: rest := List.mem_of_mem_take hq
    have hle : q.amountOut ≤ best.amountOut :=
      chain'_desc_head_max (fun r => r.amountOut) best rest hdesc q hqm
    have hp0 : p ≠ 0 := ne_of_gt (show (0 : ℚ) < p by linarith)
    unfold routeSplitOutput routeAdjustedSplits
    rw [hv, routeRenormalize_single q p hp0]
    have hjr : jsRound ((100 : ℚ) / 100 * 10000) = 10000 := by
      norm_num [jsRound]
    simp only [List.map_cons, List.map_nil, List.sum_cons, List.sum_nil,
      hjr, add_zero]
    rw [Int.mul_tdiv_cancel _ (by norm_num)]
    exact_mod_cast hle
  · rw [hv] at hlen
    simp at hlen

/-- If the proportional split output is at most the best quote's output,
the strict 0.1%-improvement gate fails. -/
theorem gate_false_of_le {s : ℤ} {a : ℕ} (h : s ≤ (a : ℤ)) :
    ¬((s : ℚ) > (a : ℚ) * (1001 / 1000)) := by
  intro hgt
  have hs : (s : ℚ) ≤ (a : ℚ) := by exact_mod_cast h
  have ha : (0 : ℚ) ≤ (a : ℚ) := by positivity
  nlinarith

/-- C1: the split-vs-single selection gate, for both the legacy per-venue
optimizer (`findOptimalRoute`) and the per-route optimizer
(`optimizeRouteSplit`).  For a non-empty quote list (sorted head `best`)
and a human-unit input amount of at least 100, the returned plan is the
split plan exactly when the split plan's total output strictly exceeds
the best single quote's output times 1.001, and the single plan
otherwise (the source compares the `formatUnits`-scaled values, which is
equivalent).  In the branches where the source never computes a split
plan — a lone quote, or at most one leg surviving the route optimizer's
5% filter — the gate provably fails, so the equivalence is unconditional. -/
theorem C1_split_gate_iff :
    (∀ (quotes : List DexQuote) (amountIn fromDecimals toDecimals : ℕ)
      (best : DexQuote) (rest : List DexQuote),
      sortDescBy (fun q => q.amountOut) quotes = best :: rest →
      100 ≤ (amountIn : ℚ) / 10 ^ fromDecimals →
      findOptimalRoute quotes amountIn fromDecimals toDecimals =
        some (if ((createSplitRoute (calculateDynamicSplit (best :: rest))
              amountIn fromDecimals toDecimals).totalOutput : ℚ) >
            (best.amountOut : ℚ) * (1001 / 1000) then
          createSplitRoute (calculateDynamicSplit (best :: rest))
            amountIn fromDecimals toDecimals
        else createSingleRoute best amountIn fromDecimals toDecimals)) ∧
    (∀ (quotes : List RouteQuote) (amountIn fromDecimals toDecimals : ℕ)
      (best : RouteQuote) (rest : List RouteQuote),
      sortDescBy (fun q => q.amountOut) quotes = best :: rest →
      100 ≤ (amountIn : ℚ) / 10 ^ fromDecimals →
      optimizeRouteSplit quotes amountIn fromDecimals toDecimals =
        some (if (routeSplitOutput (best :: rest) : ℚ) >
            (best.amountOut : ℚ) * (1001 / 1000) then
          { routes := routeAdjustedSplits (best :: rest),
            totalOutput :=
              (routeSplitOutput (best :: rest) : ℚ) / 10 ^ toDecimals,
            totalGas := routeSplitGas (best :: rest),
            avgPriceImpact := routeSplitImpact (best :: rest),
            isSplit := true }
        else routeSingleResult best toDecimals)) := by
  constructor
  · intro quotes amountIn fromDecimals toDecimals best rest hsort hamt
    rw [findOptimalRoute_cons quotes amountIn fromDecimals toDecimals best
      rest hsort]
    by_cases h1 : rest = []
    · rw [if_pos (Or.inl h1)]
      subst h1
      rw [if_neg (gate_false_of_le
        (legacySplitTotal_single best amountIn fromDecimals toDecimals))]
    · rw [if_neg (not_or.mpr ⟨h1, not_lt.mpr hamt⟩)]
      by_cases hg : ((createSplitRoute (calculateDynamicSplit (best :: rest))
          amountIn fromDecimals toDecimals).totalOutput : ℚ) >
          (best.amountOut : ℚ) * (1001 / 1000)
      · rw [if_pos ((gate_div_iff _ _ toDecimals).mpr hg), if_pos hg]
      · rw [if_neg (fun hc => hg ((gate_div_iff _ _ toDecimals).mp hc)),
          if_neg hg]
  · intro quotes amountIn fromDecimals toDecimals best rest hsort hamt
    have hdesc : (best :: rest).Chain'
        (fun a b => b.amountOut ≤ a.amountOut) := by
      have h := sortDescBy_chain' (fun q : RouteQuote => q.amountOut) quotes
      rw [hsort] at h
      exact h
    rw [optimizeRouteSplit_cons quotes amountIn fromDecimals toDecimals best
      rest hsort]
    by_cases h1 : rest = []
    · rw [if_pos (Or.inl h1)]
      subst h1
      have hlen1 : (routeValidSplits [best]).length ≤ 1 := by
        rw [routeValidSplits_eq]
        refine le_trans (List.length_filter_le _ _) ?_
        rw [List.length_zip]
        simp
      rw [if_neg (gate_false_of_le
        (routeSplitOutput_le_head best [] hdesc hlen1))]
    · rw [if_neg (not_or.mpr ⟨h1, not_lt.mpr hamt⟩)]
      by_cases h2 : (routeValidSplits (best :: rest)).length ≤ 1
      · rw [if_pos h2, if_neg (gate_false_of_le
          (routeSplitOutput_le_head best rest hdesc h2))]
      · rw [if_neg h2]
        by_cases hg : (routeSplitOutput (best :: rest) : ℚ) >
            (best.amountOut : ℚ) * (1001 / 1000)
        · rw [if_pos ((gate_div_iff _ _ toDecimals).mpr hg), if_pos hg]
        · rw [if_neg (fun hc => hg ((gate_div_iff _ _ toDecimals).mp hc)),
            if_neg hg]

theorem C1_split_gate_iff_witness :
    (sortDescBy (fun q => q.amountOut) [dqA, dqC] = dqA :: [dqC] ∧
      (100 : ℚ) ≤ ((100 : ℕ) : ℚ) / 10 ^ (0 : ℕ) ∧
      findOptimalRoute [dqA, dqC] 100 0 18 =
        some (if ((createSplitRoute (calculateDynamicSplit (dqA :: [dqC]))
              100 0 18).totalOutput : ℚ) >
            (dqA.amountOut : ℚ) * (1001 / 1000) then
          createSplitRoute (calculateDynamicSplit (dqA :: [dqC])) 100 0 18
        else createSingleRoute dqA 100 0 18)) ∧
    (sortDescBy (fun q => q.amountOut) [rqA, rqC] = rqA :: [rqC] ∧
      (100 : ℚ) ≤ ((100 : ℕ) : ℚ) / 10 ^ (0 : ℕ) ∧
      optimizeRouteSplit [rqA, rqC] 100 0 18 =
        some (if (routeSplitOutput (rqA :: [rqC]) : ℚ) >
            (rqA.amountOut : ℚ) * (1001 / 1000) then
          { routes := routeAdjustedSplits (rqA :: [rqC]),
            totalOutput := (routeSplitOutput (rqA :: [rqC]) : ℚ) / 10 ^ 18,
            totalGas := routeSplitGas (rqA :: [rqC]),
            avgPriceImpact := routeSplitImpact (rqA :: [rqC]),
            isSplit := true }
        else routeSingleResult rqA 18)) :=
  ⟨⟨rfl, by norm_num,
    C1_split_gate_iff.1 [dqA, dqC] 100 0 18 dqA [dqC] rfl (by norm_num)⟩,
   ⟨rfl, by norm_num,
    C1_split_gate_iff.2 [rqA, rqC] 100 0 18 rqA [rqC] rfl (by norm_num)⟩⟩

/-! ### Comparing the two split pipelines (C3) -/

/-- Inserting commutes with projecting the sort key. -/
theorem map_key_insDescBy (key : α → ℕ) (l : List α) (q : α) :
    (insDescBy key l q).map key = insDescBy (fun n => n) (l.map key) (key q) := by
  induction l with
  | nil => rfl
  | cons x xs ih =>
      by_cases h : key x < key q
      · simp [insDescBy, h]
      · simp [insDescBy, h, ih]

/-- Sorting commutes with projecting the sort key: equal key lists sort to
equal key lists. -/
theorem map_key_sortDescBy (key : α → ℕ) (l : List α) :
    (sortDescBy key l).map key = sortDescBy (fun n => n) (l.map key) := by
  suffices h : ∀ acc : List α, (l.foldl (insDescBy key) acc).map key =
      (l.map key).foldl (insDescBy (fun n => n)) (acc.map key) by
    exact h []
  induction l with
  | nil => exact fun acc => rfl
  | cons x xs ih =>
      intro acc
      simp only [List.foldl_cons, List.map_cons]
      rw [← map_key_insDescBy key acc x]
      exact ih (insDescBy key acc x)

/-- When no percentage lies in the gap `[1, 5)` between the two configured
minima, the 1% filter and the 5% filter keep exactly the same entries. -/
theorem filter_ge_one_eq_filter_ge_five (ps : List ℚ)
    (hgap : ∀ p ∈ ps, ¬((1 : ℚ) ≤ p ∧ p < 5)) :
    ps.filter (fun p => 1 ≤ p) = ps.filter (fun p => 5 ≤ p) := by
  induction ps with
  | nil => rfl
  | cons p ps ih =>
      have hih := ih fun x hx => hgap x (by simp [hx])
      have hp := hgap p (by simp)
      by_cases h1 : (1 : ℚ) ≤ p
      · have h5 : (5 : ℚ) ≤ p := by
          by_contra h5
          exact hp ⟨h1, lt_of_not_le h5⟩
        simp [List.filter_cons, h1, h5, hih]
      · have h5 : ¬(5 : ℚ) ≤ p := fun h => h1 (by linarith)
        simp [List.filter_cons, h1, h5, hih]

/-- Equal key lists give equal cast top-3 output lists. -/
theorem take3_cast_eq {β γ : Type} (outB : β → ℕ) (outC : γ → ℕ)
    (lb : List β) (lc : List γ) (h : lb.map outB = lc.map outC) :
    (lb.take 3).map (fun q => (outB q : ℚ)) =
      (lc.take 3).map (fun q => (outC q : ℚ)) := by
  have hb : (lb.take 3).map (fun q => (outB q : ℚ)) =
      ((lb.map outB).take 3).map (Nat.cast : ℕ → ℚ) := by
    rw [List.map_take, List.map_take, List.map_map]
    rfl
  have hc : (lc.take 3).map (fun q => (outC q : ℚ)) =
      ((lc.map outC).take 3).map (Nat.cast : ℕ → ℚ) := by
    rw [List.map_take, List.map_take, List.map_map]
    rfl
  rw [hb, hc, h]

/-- The canonical renormalisation on percentages alone. -/
def roundedSnd (ps : List ℚ) : List ℚ :=
  ps.map (fun p => round2 (p / ps.sum * 100))

def residualSnd : List ℚ → List ℚ
  | [] => []
  | p :: ps => (p + (100 - (p :: ps).sum)) :: ps

/-- The renormalised percentages depend only on the incoming percentage
list, not on the attached quotes. -/
theorem canonical_map_snd {β : Type} (vs : List (β × ℚ)) :
    (residualFixed (roundedSplits vs)).map (fun s => s.2) =
      residualSnd (roundedSnd (vs.map (fun s => s.2))) := by
  cases vs with
  | nil => rfl
  | cons v vs' =>
      simp only [roundedSplits, residualFixed, roundedSnd, residualSnd,
        List.map_cons, List.map_map, List.sum_cons]
      rfl

/-- C3, amended: the two split pipelines share the stable descending sort,
the top-3 window, the proportional percentages, the renormalisation with
first-leg residual correction, and the 1.001 gate (`C1_split_gate_iff`'s
subject), but their minimum-leg thresholds differ (1% legacy vs 5% route).
Whenever no proportional percentage of the sorted top 3 falls in the gap
`[1, 5)`, equal output lists produce identical leg percentages. -/
theorem C3_split_pipelines_agree (dqs : List DexQuote) (rqs : List RouteQuote)
    (houts : dqs.map (fun q => q.amountOut) = rqs.map (fun q => q.amountOut))
    (hgap : ∀ p ∈ (((sortDescBy (fun q => q.amountOut) dqs).take 3).map
        (fun q => (q.amountOut : ℚ))).map
        (fun o => o / (((sortDescBy (fun q => q.amountOut) dqs).take 3).map
          (fun q => (q.amountOut : ℚ))).sum * 100),
      ¬((1 : ℚ) ≤ p ∧ p < 5)) :
    (calculateDynamicSplit (sortDescBy (fun q => q.amountOut) dqs)).map
        (fun s => s.2) =
      (routeAdjustedSplits (sortDescBy (fun q => q.amountOut) rqs)).map
        (fun s => s.2) := by
  set sd := sortDescBy (fun q : DexQuote => q.amountOut) dqs with hsd
  set sr := sortDescBy (fun q : RouteQuote => q.amountOut) rqs with hsr
  have hkeys : sd.map (fun q => q.amountOut) = sr.map (fun q => q.amountOut) := by
    rw [hsd, hsr, map_key_sortDescBy, map_key_sortDescBy, houts]
  have htop : (sd.take 3).map (fun q => (q.amountOut : ℚ)) =
      (sr.take 3).map (fun q => (q.amountOut : ℚ)) :=
    take3_cast_eq _ _ sd sr hkeys
  have hlb : (sd.take 3).length = (((sd.take 3).map (fun q => (q.amountOut : ℚ))).map
      (fun o => o / ((sd.take 3).map (fun q => (q.amountOut : ℚ))).sum * 100)).length := by
    simp
  have hlc : (sr.take 3).length = (((sr.take 3).map (fun q => (q.amountOut : ℚ))).map
      (fun o => o / ((sr.take 3).map (fun q => (q.amountOut : ℚ))).sum * 100)).length := by
    simp
  have hsndD : (legacyValidSplits sd).map (fun s => s.2) =
      (((sd.take 3).map (fun q => (q.amountOut : ℚ))).map
        (fun o => o / ((sd.take 3).map (fun q => (q.amountOut : ℚ))).sum * 100)).filter
        (fun p => 1 ≤ p) := by
    rw [legacyValidSplits_eq]
    rw [show (fun (s : DexQuote × ℚ) => s.2) = Prod.snd from rfl]
    exact map_snd_filter_zip (fun p => decide (1 ≤ p)) _ _ hlb
  have hsndR : (routeValidSplits sr).map (fun s => s.2) =
      (((sr.take 3).map (fun q => (q.amountOut : ℚ))).map
        (fun o => o / ((sr.take 3).map (fun q => (q.amountOut : ℚ))).sum * 100)).filter
        (fun p => 5 ≤ p) := by
    rw [routeValidSplits_eq]
    rw [show (fun (s : RouteQuote × ℚ) => s.2) = Prod.snd from rfl]
    exact map_snd_filter_zip (fun p => decide (5 ≤ p)) _ _ hlc
  have hgap' : ∀ p ∈ (((sr.take 3).map (fun q => (q.amountOut : ℚ))).map
      (fun o => o / ((sr.take 3).map (fun q => (q.amountOut : ℚ))).sum * 100)),
      ¬((1 : ℚ) ≤ p ∧ p < 5) := by
    rw [← htop]
    exact hgap
  have hsnd_eq : (legacyValidSplits sd).map (fun s => s.2) =
      (routeValidSplits sr).map (fun s => s.2) := by
    rw [hsndD, hsndR, htop]
    exact filter_ge_one_eq_filter_ge_five _ hgap'
  simp only [routeAdjustedSplits]
  by_cases hone : (legacyValidSplits sd).length = 1
  · obtain ⟨v, hv⟩ := List.length_eq_one.mp hone
    have hsndD1 : (legacyValidSplits sd).map (fun s => s.2) = [v.2] := by
      rw [hv]
      rfl
    have hR : (routeValidSplits sr).map (fun s => s.2) = [v.2] := by
      rw [← hsnd_eq, hsndD1]
    have h5 : (5 : ℚ) ≤ v.2 := by
      have hm : v.2 ∈ (routeValidSplits sr).map (fun s => s.2) := by
        rw [hR]
        simp
      obtain ⟨t, ht, hteq⟩ := List.mem_map.mp hm
      rw [routeValidSplits_eq] at ht
      have h2 := (List.mem_filter.mp ht).2
      rw [← hteq]
      simpa using h2
    have hRlen : (routeValidSplits sr).length = 1 := by
      have := congrArg List.length hR
      simpa using this
    obtain ⟨w, hw⟩ := List.length_eq_one.mp hRlen
    have hw2 : w.2 = v.2 := by
      rw [hw] at hR
      simpa using hR
    simp only [calculateDynamicSplit]
    rw [if_pos hone, hv, hw,
      show routeRenormalize [w] = [(w.1, 100)] from
        routeRenormalize_single w.1 w.2
          (by rw [hw2]; exact ne_of_gt (by linarith))]
    simp
  · simp only [calculateDynamicSplit]
    rw [if_neg hone, legacyRenormalize_eq_canonical,
      routeRenormalize_eq_canonical, canonical_map_snd, canonical_map_snd,
      hsnd_eq]

/-- C3, refuted as stated: the same three output amounts (100, 100, 4),
already descending, drive the legacy optimizer to a THREE-leg split at
49.02% / 49.02% / 1.96% (its minimum is 1%) while the route optimizer
drops the third leg at its 5% minimum and renormalises to 50% / 50% — the
two pipelines do not share the minimum-percentage threshold. -/
theorem C3_threshold_counterexample :
    [dqA, dqB, dqC].map (fun q => q.amountOut) =
      [rqA, rqB, rqC].map (fun q => q.amountOut) ∧
    sortDescBy (fun q => q.amountOut) [dqA, dqB, dqC] = [dqA, dqB, dqC] ∧
    sortDescBy (fun q => q.amountOut) [rqA, rqB, rqC] = [rqA, rqB, rqC] ∧
    (calculateDynamicSplit [dqA, dqB, dqC]).map (fun s => s.2) =
      [2451 / 50, 2451 / 50, 49 / 25] ∧
    (routeAdjustedSplits [rqA, rqB, rqC]).map (fun s => s.2) = [50, 50] := by
  refine ⟨rfl, rfl, rfl, ?_, ?_⟩
  · norm_num [calculateDynamicSplit, legacyValidSplits, legacyRenormalize,
      normalizePercentages, round2, jsRound, dqA, dqB, dqC, List.filter]
  · norm_num [routeAdjustedSplits, routeValidSplits, routeRenormalize,
      jsRound, rqA, rqB, rqC, List.filter]

theorem C3_split_pipelines_agree_witness :
    ([dqA, dqB].map (fun q => q.amountOut) =
      [rqA, rqB].map (fun q => q.amountOut)) ∧
    (∀ p ∈ (((sortDescBy (fun q => q.amountOut) [dqA, dqB]).take 3).map
        (fun q => (q.amountOut : ℚ))).map
        (fun o => o / (((sortDescBy (fun q => q.amountOut) [dqA, dqB]).take 3).map
          (fun q => (q.amountOut : ℚ))).sum * 100),
      ¬((1 : ℚ) ≤ p ∧ p < 5)) ∧
    (calculateDynamicSplit (sortDescBy (fun q => q.amountOut) [dqA, dqB])).map
        (fun s => s.2) =
      (routeAdjustedSplits (sortDescBy (fun q => q.amountOut) [rqA, rqB])).map
        (fun s => s.2) := by
  have hgap : ∀ p ∈ (((sortDescBy (fun q => q.amountOut) [dqA, dqB]).take 3).map
      (fun q => (q.amountOut : ℚ))).map
      (fun o => o / (((sortDescBy (fun q => q.amountOut) [dqA, dqB]).take 3).map
        (fun q => (q.amountOut : ℚ))).sum * 100),
      ¬((1 : ℚ) ≤ p ∧ p < 5) := by
    intro p hp
    norm_num [sortDescBy, insDescBy, dqA, dqB] at hp
    rw [hp]
    norm_num
  exact ⟨rfl, hgap, C3_split_pipelines_agree [dqA, dqB] [rqA, rqB] rfl hgap⟩

/-! ## QuoteService.getExactOutputQuote (`part_002`, lines 486–547)

One loop iteration evaluates the full exact-input pipeline
(`fetchAllQuotes` + `findOptimalRoute` + `parseFloat(route.totalOutput)`)
at the midpoint; that evaluation is abstracted as an oracle
`f : ℚ → Outcome` consuming the midpoint (the source's
`parseUnits(mid.toFixed(fromDecimals))` formatting is folded into the
oracle).  `Outcome.empty` is `dexQuotes.length === 0` (the `continue`
that changes nothing), `Outcome.err` is a thrown error (caught; the
bracket is adjusted against `estimatedInput`), `Outcome.success o` is a
quote with parsed output `o`.  The sample-swap estimate (lines 456–484)
only produces the initial guess `estimatedInput`, which is taken as a
parameter. -/

inductive Outcome where
  | success (output : ℚ)
  | empty
  | err
deriving DecidableEq

structure SolveState where
  low : ℚ
  high : ℚ
  best : Option (ℚ × ℚ)
  done : Bool
deriving DecidableEq

/-- Lines 519–522: keep the result closest to the target (strict `<`, so
ties keep the earlier iterate). `best` stores `(input, output)`. -/
def updateBest (targetOutput : ℚ) (best : Option (ℚ × ℚ))
    (mid output : ℚ) : Option (ℚ × ℚ) :=
  match best with
  | none => some (mid, output)
  | some b =>
      if |output - targetOutput| < |b.2 - targetOutput| then some (mid, output)
      else some b

/-- One iteration of the loop body (lines 491–543); `done` models the
`break` on the 0.1% tolerance. -/
def solveStep (f : ℚ → Outcome) (targetOutput estimatedInput : ℚ)
    (st : SolveState) : SolveState :=
  if st.done then st
  else
    match f ((st.low + st.high) / 2) with
    | Outcome.empty => st
    | Outcome.err =>
        if (st.low + st.high) / 2 < estimatedInput then
          { st with low := (st.low + st.high) / 2 }
        else { st with high := (st.low + st.high) / 2 }
    | Outcome.success output =>
        { low := if output < targetOutput then (st.low + st.high) / 2
            else st.low,
          high := if output < targetOutput then st.high
            else (st.low + st.high) / 2,
          best := updateBest targetOutput st.best ((st.low + st.high) / 2)
            output,
          done := decide (|output - targetOutput| / targetOutput < 1 / 1000) }

/-- Lines 487–489: the initial bracket `[0.5 × guess, 2.0 × guess]`. -/
def solveInit (estimatedInput : ℚ) : SolveState :=
  { low := estimatedInput * (1 / 2), high := estimatedInput * 2,
    best := none, done := false }

def solveSteps (f : ℚ → Outcome) (targetOutput estimatedInput : ℚ) :
    ℕ → SolveState
  | 0 => solveInit estimatedInput
  | n + 1 => solveStep f targetOutput estimatedInput
      (solveSteps f targetOutput estimatedInput n)

/-- The solver: 5 iterations, then `bestQuote` (`none` models the thrown
`NotFoundException`, lines 545–547). -/
def getExactOutputQuote (f : ℚ → Outcome) (targetOutput estimatedInput : ℚ) :
    Option (ℚ × ℚ) :=
  (solveSteps f targetOutput estimatedInput 5).best

theorem updateBest_ne_none (t : ℚ) (b : Option (ℚ × ℚ)) (mid o : ℚ) :
    updateBest t b mid o ≠ none := by
  cases b with
  | none => simp [updateBest]
  | some x =>
      simp only [updateBest]
      split_ifs <;> simp

/-- Every stored best is an actual oracle result at its own input. -/
theorem solveSteps_best_sound (f : ℚ → Outcome) (t g : ℚ) :
    ∀ n (inp out : ℚ), (solveSteps f t g n).best = some (inp, out) →
      f inp = Outcome.success out := by
  intro n
  induction n with
  | zero =>
      intro inp out h
      simp [solveSteps, solveInit] at h
  | succ n ih =>
      intro inp out h
      simp only [solveSteps] at h
      unfold solveStep at h
      split at h
      · exact ih inp out h
      · split at h
        · exact ih inp out h
        · split_ifs at h <;> exact ih inp out h
        · rename_i output heq
          have h' : updateBest t ((solveSteps f t g n).best)
              (((solveSteps f t g n).low + (solveSteps f t g n).high) / 2)
              output = some (inp, out) := h
          unfold updateBest at h'
          cases hb : (solveSteps f t g n).best with
          | none =>
              rw [hb] at h'
              simp only [updateBest, Option.some.injEq, Prod.mk.injEq] at h'
              rw [← h'.1, ← h'.2]
              exact heq
          | some b =>
              rw [hb] at h'
              simp only [updateBest] at h'
              split_ifs at h'
              · simp only [Option.some.injEq, Prod.mk.injEq] at h'
                rw [← h'.1, ← h'.2]
                exact heq
              · simp only [Option.some.injEq] at h'
                refine ih inp out ?_
                rw [hb, h']

theorem solveSteps_done_best (f : ℚ → Outcome) (t g : ℚ) :
    ∀ n, (solveSteps f t g n).done = true →
      (solveSteps f t g n).best ≠ none := by
  intro n
  induction n with
  | zero =>
      intro h
      simp [solveSteps, solveInit] at h
  | succ n ih =>
      simp only [solveSteps]
      unfold solveStep
      by_cases hd : (solveSteps f t g n).done = true
      · rw [if_pos hd]
        exact ih
      · rw [if_neg hd]
        cases hf : f (((solveSteps f t g n).low +
            (solveSteps f t g n).high) / 2) with
        | empty => exact ih
        | err =>
            split_ifs
            · exact fun h hn => ih h hn
            · exact fun h hn => ih h hn
        | success o =>
            exact fun h hn => updateBest_ne_none t _ _ _ hn

/-- `bestQuote` stays `null` exactly as long as no iteration's pipeline
evaluation succeeds. -/
theorem solveSteps_none_iff (f : ℚ → Outcome) (t g : ℚ) :
    ∀ n, ((solveSteps f t g n).best = none ↔
      ∀ k, k < n → ∀ o : ℚ,
        f (((solveSteps f t g k).low + (solveSteps f t g k).high) / 2) ≠
          Outcome.success o) := by
  intro n
  induction n with
  | zero => simp [solveSteps, solveInit]
  | succ n ih =>
      constructor
      · intro h
        by_cases hd : (solveSteps f t g n).done = true
        · exfalso
          refine solveSteps_done_best f t g n hd ?_
          simp only [solveSteps] at h
          unfold solveStep at h
          rw [if_pos hd] at h
          exact h
        · have hstep : (solveSteps f t g n).best = none ∧
              ∀ o : ℚ, f (((solveSteps f t g n).low +
                (solveSteps f t g n).high) / 2) ≠ Outcome.success o := by
            simp only [solveSteps] at h
            unfold solveStep at h
            rw [if_neg hd] at h
            split at h
            · rename_i heq
              exact ⟨h, fun o ho => by rw [heq] at ho; exact Outcome.noConfusion ho⟩
            · rename_i heq
              split_ifs at h <;>
                exact ⟨h, fun o ho => by rw [heq] at ho; exact Outcome.noConfusion ho⟩
            · rename_i output heq
              exact absurd h (updateBest_ne_none t _ _ _)
          intro k hk o
          rcases Nat.lt_succ_iff_lt_or_eq.mp hk with hk' | rfl
          · exact (ih.mp hstep.1) k hk' o
          · exact hstep.2 o
      · intro hall
        have hbn : (solveSteps f t g n).best = none :=
          ih.mpr fun k hk o => hall k (Nat.lt_succ_of_lt hk) o
        have hd : ¬(solveSteps f t g n).done = true := fun hd =>
          solveSteps_done_best f t g n hd hbn
        have hev := fun o => hall n (Nat.lt_succ_self n) o
        simp only [solveSteps]
        unfold solveStep
        rw [if_neg hd]
        cases hf : f (((solveSteps f t g n).low +
            (solveSteps f t g n).high) / 2) with
        | success o => exact absurd hf (hev o)
        | empty => exact hbn
        | err => split_ifs <;> exact hbn

/-- A constant pipeline: every input quotes successfully to output 0.  It
is (weakly) monotone, so it satisfies the claim's hypothesis. -/
def constZeroQuote : ℚ → Outcome := fun _ => Outcome.success 0

/-- C8, refuted as stated: under the monotone pipeline `constZeroQuote`
and target output 100 (guess 100), the solver returns input 125 whose
re-quoted output is 0 — off by 100%, far outside the 0.1% tolerance.
Bisection over 5 iterations only narrows the bracket; nothing makes the
best-seen output land within tolerance when the bracket never contains a
suitable input. -/
theorem C8_tolerance_counterexample :
    (∀ x y ox oy : ℚ, x ≤ y → constZeroQuote x = Outcome.success ox →
      constZeroQuote y = Outcome.success oy → ox ≤ oy) ∧
    getExactOutputQuote constZeroQuote 100 100 = some (125, 0) ∧
    constZeroQuote 125 = Outcome.success 0 ∧
    ¬(|(0 : ℚ) - 100| / 100 < 1 / 1000) := by
  have habs : |(0 : ℚ) - 100| = 100 := by
    rw [abs_of_nonpos (by norm_num : (0 : ℚ) - 100 ≤ 0)]
    norm_num
  refine ⟨?_, ?_, rfl, by rw [habs]; norm_num⟩
  · intro x y ox oy _ hx hy
    simp only [constZeroQuote, Outcome.success.injEq] at hx hy
    rw [← hx, ← hy]
  · norm_num [getExactOutputQuote, solveSteps, solveStep, solveInit,
      updateBest, constZeroQuote, habs]

/-- C8, amended: what the solver actually guarantees.  It runs the 5
bisection iterations over the initial bracket `[0.5 × guess, 2 × guess]`
(`solveInit`/`solveSteps _ _ _ 5` by construction).  The returned input,
re-quoted through the same pipeline, reproduces exactly the best-seen
output — which need not be within 0.1% of the target — and the
no-liquidity error is thrown precisely when no iteration's pipeline
evaluation succeeded. -/
theorem C8_solver_best_seen :
    (∀ (f : ℚ → Outcome) (targetOutput estimatedInput inp out : ℚ),
      getExactOutputQuote f targetOutput estimatedInput = some (inp, out) →
      f inp = Outcome.success out) ∧
    (∀ (f : ℚ → Outcome) (targetOutput estimatedInput : ℚ),
      getExactOutputQuote f targetOutput estimatedInput = none ↔
      ∀ k, k < 5 → ∀ o : ℚ,
        f (((solveSteps f targetOutput estimatedInput k).low +
            (solveSteps f targetOutput estimatedInput k).high) / 2) ≠
          Outcome.success o) := by
  constructor
  · intro f t g inp out h
    exact solveSteps_best_sound f t g 5 inp out h
  · intro f t g
    exact solveSteps_none_iff f t g 5

theorem C8_solver_best_seen_witness :
    getExactOutputQuote constZeroQuote 100 100 = some (125, 0) ∧
    constZeroQuote 125 = Outcome.success 0 := by
  have habs : |(0 : ℚ) - 100| = 100 := by
    rw [abs_of_nonpos (by norm_num : (0 : ℚ) - 100 ≤ 0)]
    norm_num
  have hEval : getExactOutputQuote constZeroQuote 100 100 = some (125, 0) := by
    norm_num [getExactOutputQuote, solveSteps, solveStep, solveInit,
      updateBest, constZeroQuote, habs]
  exact ⟨hEval, C8_solver_best_seen.1 constZeroQuote 100 100 125 0 hEval⟩

end VoidDex
